import Mathlib

/-!
Shallow embedding of the bracket engine of the Selenium-538-Madness
repository (src/tournament.rs, pure parts of src/simulate.rs), together
with theorems settling the specification claims about it.

Conventions:
* Rust panics (index out of bounds, `unwrap`, `panic!`, `unreachable!`)
  are modelled by `Option`/`Except` results: `none` / `.error` means the
  Rust code panics.
* `u8`/`usize` values are modelled as `Nat`; overflow is irrelevant on
  the domains exercised here (noted locally where it could matter).
* `HashMap<RoundKind, Round>` is modelled as a function
  `RoundKind → Option Round`; `HashSet<String>` as a `List String`
  queried only through membership, matching the Rust code which only
  calls `contains` on it.
* `construct_html_name` is declared in the crate but its definition is
  not part of the sources here; every definition that needs it takes it
  as an explicit parameter `hn : String → String`.
-/

/-- Bracket regions (src/tournament.rs `Region`). -/
inductive Region where
  | West
  | South
  | Midwest
  | East
deriving DecidableEq

/-- `Region::to_ind` (src/tournament.rs lines 23-30). -/
def Region.to_ind : Region → Nat
  | Region.West => 0
  | Region.East => 1
  | Region.South => 2
  | Region.Midwest => 3

/-- `MatchupInd` (src/tournament.rs lines 78-81). -/
inductive MatchupInd where
  | Team1
  | Team2
deriving DecidableEq

/-- `MatchupInd::to_ind` (src/tournament.rs lines 84-89). -/
def MatchupInd.to_ind : MatchupInd → Nat
  | MatchupInd.Team1 => 0
  | MatchupInd.Team2 => 1

/-- One matchup in a round (src/tournament.rs `Matchup`).
The Rust field `teams: [Option<String>; 2]` is modelled as a pair. -/
structure Matchup where
  teams : Option String × Option String
  winner : Option MatchupInd
  index : Nat
deriving DecidableEq

/-- `Matchup::new` (src/tournament.rs lines 104-109): all-default fields
except the index. -/
def Matchup.new (index : Nat) : Matchup :=
  { teams := (none, none), winner := none, index := index }

/-- Slot access `self.teams[ind.to_ind()]`. -/
def Matchup.teamAt (m : Matchup) (ind : MatchupInd) : Option String :=
  match ind with
  | MatchupInd.Team1 => m.teams.1
  | MatchupInd.Team2 => m.teams.2

/-- `Matchup::teams` (src/tournament.rs lines 111-116): both slots,
unwrapped; `none` models the panic when either slot is empty. -/
def Matchup.teamsBoth (m : Matchup) : Option (String × String) :=
  match m.teams.1, m.teams.2 with
  | some a, some b => some (a, b)
  | _, _ => none

/-- `Matchup::set_winner` (src/tournament.rs lines 119-121). -/
def Matchup.set_winner (m : Matchup) (winner : MatchupInd) : Matchup :=
  { m with winner := some winner }

/-- `Matchup::is_team_ind` (src/tournament.rs lines 135-140):
`self.teams[ind].as_ref().map(|t| t == team).unwrap_or_default()`. -/
def Matchup.is_team_ind (m : Matchup) (team : String) (ind : MatchupInd) : Bool :=
  match m.teamAt ind with
  | some t => t == team
  | none => false

/-- `Matchup::set_winning_team` (src/tournament.rs lines 123-129). -/
def Matchup.set_winning_team (m : Matchup) (team : String) : Matchup :=
  if m.is_team_ind team MatchupInd.Team1 then
    m.set_winner MatchupInd.Team1
  else
    m.set_winner MatchupInd.Team2

/-- `Matchup::includes_team` (src/tournament.rs lines 131-133). -/
def Matchup.includes_team (m : Matchup) (team : String) : Bool :=
  m.is_team_ind team MatchupInd.Team1 || m.is_team_ind team MatchupInd.Team2

/-- `Matchup::completed` (src/tournament.rs lines 142-144). -/
def Matchup.completed (m : Matchup) : Bool :=
  m.winner.isSome

/-- `Matchup::add_team` (src/tournament.rs lines 147-156): fill the first
empty slot, else the second; `none` models the `panic!("Both teams
already set!")` when both slots are filled. -/
def Matchup.add_team (m : Matchup) (name : String) : Option Matchup :=
  match m.teams.1 with
  | none => some { m with teams := (some name, m.teams.2) }
  | some _ =>
    match m.teams.2 with
    | none => some { m with teams := (m.teams.1, some name) }
    | some _ => none

/-- `RoundKind` (src/tournament.rs lines 187-192). -/
inductive RoundKind where
  | PlayIn
  | Round (n : Nat)
deriving DecidableEq

/-- `RoundKind::next_round` (src/tournament.rs lines 195-201). -/
def RoundKind.next_round : RoundKind → Option RoundKind
  | RoundKind.PlayIn => some (RoundKind.Round 1)
  | RoundKind.Round r => if r < 6 then some (RoundKind.Round (r + 1)) else none

/-- `RoundKind::matchup_count` (src/tournament.rs lines 203-208).
`6 - round` is `usize` subtraction in Rust; only rounds 1..6 are ever
constructed, where it matches truncated `Nat` subtraction. -/
def RoundKind.matchup_count : RoundKind → Nat
  | RoundKind.PlayIn => 4
  | RoundKind.Round round => 2 ^ (6 - round)

/-- A round (src/tournament.rs `Round`). -/
structure Round where
  round : RoundKind
  matchups : List Matchup
deriving DecidableEq

/-- `Round::empty` (src/tournament.rs lines 230-235). -/
def Round.empty (round : Nat) : Round :=
  { round := RoundKind.Round round,
    matchups := (List.range (RoundKind.Round round).matchup_count).map Matchup.new }

/-- Matchup number for a given seed (src/tournament.rs lines 288-303,
`matchup_ind`).  `none` models both the `unreachable!()` arm and the
debug overflow panic of `17 - seed`; for every `seed > 17` the wrapped
`u8` value `17 - seed` also falls outside the match table, so release
behaviour agrees with this model as well. -/
def matchup_ind (seed : Nat) : Option Nat :=
  let seed := if seed > 8 then 17 - seed else seed
  match seed with
  | 1 => some 0
  | 8 => some 1
  | 5 => some 2
  | 4 => some 3
  | 6 => some 4
  | 3 => some 5
  | 7 => some 6
  | 2 => some 7
  | _ => none

/-- A team (src/teams.rs `Team`); the validated `Seed(u8)` payload is
modelled as a bare `Nat`. -/
structure Team where
  name : String
  region : Region
  seed : Nat
deriving DecidableEq

/-- `Round::add_team_to_matchup` (src/tournament.rs lines 237-239);
`none` models the `Vec` index panic and the `add_team` panic. -/
def Round.add_team_to_matchup (r : Round) (team : String) (ind : Nat) : Option Round :=
  match r.matchups.get? ind with
  | none => none
  | some m => (m.add_team team).map fun m2 => { r with matchups := r.matchups.set ind m2 }

/-- The sort key of `Round::new_round1`:
`team.seed.0 as usize + team.region.to_ind() * 16`. -/
def team_sort_key (t : Team) : Nat :=
  t.seed + t.region.to_ind * 16

/-- The per-team slot `matchup_ind(team.seed.0) + 8 * team.region.to_ind()`
computed inside `Round::new_round1`; `none` when `matchup_ind` panics. -/
def team_slot (t : Team) : Option Nat :=
  (matchup_ind t.seed).map fun mi => mi + 8 * t.region.to_ind

/-- The (region, seed) pair of a team. -/
def team_pair (t : Team) : Region × Nat :=
  (t.region, t.seed)

/-- `team_slot` as a function of the (region, seed) pair alone. -/
def pair_slot (p : Region × Nat) : Option Nat :=
  (matchup_ind p.2).map fun mi => mi + 8 * p.1.to_ind

/-- The filled slot names of a matchup, first slot first (an observer
used to state properties of round construction). -/
def slotNames (m : Matchup) : List String :=
  (match m.teams.1 with
    | some a => [a]
    | none => []) ++
  (match m.teams.2 with
    | some b => [b]
    | none => [])

/-- The loop body of `Round::new_round1`: compute the slot (panicking
inside `matchup_ind` for an invalid seed) and insert the team there. -/
def insert_step (r : Round) (t : Team) : Option Round :=
  match team_slot t with
  | none => none
  | some slot => r.add_team_to_matchup t.name slot

/-- `Round::new_round1` (src/tournament.rs lines 241-251): stable sort by
`team_sort_key` (Rust's `sort_by_key` is a stable sort; it is modelled
here by the stable, structurally recursive insertion sort), then insert
every team into its slot's matchup.  The
`debug_assert_eq!(round.round.matchup_count() * 2, teams.len())` is kept
as a guard (`none` models its debug-build panic). -/
def new_round1 (teams : List Team) : Option Round :=
  let sorted := teams.insertionSort fun a b => team_sort_key a ≤ team_sort_key b
  if (Round.empty 1).round.matchup_count * 2 = sorted.length then
    sorted.foldlM insert_step (Round.empty 1)
  else
    none

/-- `Round::get_matchup_with_team` (src/tournament.rs lines 262-269):
first matchup that includes the team; `none` models the
`panic!("Team {} not found")`. -/
def Round.get_matchup_with_team (r : Round) (team : String) : Option Matchup :=
  r.matchups.find? fun m => m.includes_team team

/-- The effect of `get_matchup_with_team_mut(team).set_winning_team(team)`
on a round's matchup list: the first matchup that includes the team gets
its winner set; `none` models the `panic!("Team {} not found")` of
`Round::get_matchup_with_team_mut` (src/tournament.rs lines 253-260). -/
def setWinningFirst : List Matchup → String → Option (List Matchup)
  | [], _ => none
  | m :: ms, team =>
    if m.includes_team team then
      some (m.set_winning_team team :: ms)
    else
      (setWinningFirst ms team).map fun ms2 => m :: ms2

/-- A complete tournament (src/tournament.rs `Tournament`); the
`HashMap<RoundKind, Round>` is modelled as a function. -/
structure Tournament where
  rounds : RoundKind → Option Round

/-- `self.rounds.insert(k, r)` on the map. -/
def Tournament.updateRound (t : Tournament) (rk : RoundKind) (r : Round) : Tournament :=
  { rounds := fun k => if k = rk then some r else t.rounds k }

/-- `Tournament::advance_team` (src/tournament.rs lines 346-357): set the
winner on the first matchup of `round` that includes `team`, re-look the
matchup up to read its `index` field, then push `team` into the next
round's matchup at position `index / 2`.  `none` models the panics:
missing round, team not found, next-round map `unwrap`, `Vec` index out
of bounds, and `add_team` on a full matchup. -/
def Tournament.advance_team (t : Tournament) (team : String) (round : RoundKind) :
    Option Tournament :=
  match t.rounds round with
  | none => none
  | some r =>
    match setWinningFirst r.matchups team with
    | none => none
    | some ms1 =>
      let r1 : Round := { r with matchups := ms1 }
      let t1 := t.updateRound round r1
      match r1.get_matchup_with_team team with
      | none => none
      | some m =>
        match round.next_round with
        | none => some t1
        | some nr =>
          match t1.rounds nr with
          | none => none
          | some rN =>
            match rN.matchups.get? (m.index / 2) with
            | none => none
            | some target =>
              match target.add_team team with
              | none => none
              | some target2 =>
                some (t1.updateRound nr { rN with matchups := rN.matchups.set (m.index / 2) target2 })

/-- The observed teams pushed for one matchup during reconciliation
(src/tournament.rs lines 327-336): each filled slot, in order, whose
`construct_html_name` is contained in the observed set. -/
def matchupObserved (cur : List String) (hn : String → String) (m : Matchup) : List String :=
  (match m.teams.1 with
    | some team => if cur.contains (hn team) then [team] else []
    | none => []) ++
  (match m.teams.2 with
    | some team => if cur.contains (hn team) then [team] else []
    | none => [])

/-- `teams_to_advance` for one round (src/tournament.rs lines 324-337):
empty when the next round has no observed entry. -/
def collectAdvancers (obsNext : Option (List String)) (hn : String → String)
    (ms : List Matchup) : List String :=
  match obsNext with
  | none => []
  | some cur => (ms.map (matchupObserved cur hn)).flatten

/-- The advancing loop `for team in teams_to_advance` (src/tournament.rs
lines 339-341). -/
def advanceAll (t : Tournament) (teams : List String) (rk : RoundKind) : Option Tournament :=
  teams.foldlM (fun acc tm => acc.advance_team tm rk) t

/-- One iteration of the reconciliation loop of `Tournament::new`
(src/tournament.rs lines 323-342) for `round_kind = Round n`:
collect the observed teams of round `n` from the current state and
advance them.  `none` models the `self.rounds[&round_kind]` index panic
and panics of `advance_team`. -/
def reconcileRound (obs : RoundKind → Option (List String)) (hn : String → String)
    (t : Tournament) (n : Nat) : Option Tournament :=
  match t.rounds (RoundKind.Round n) with
  | none => none
  | some r =>
    advanceAll t (collectAdvancers (obs (RoundKind.Round (n + 1))) hn r.matchups)
      (RoundKind.Round n)

/-- The whole reconciliation loop `for round_kind in (1..=5)` of
`Tournament::new`. -/
def reconcilePass (obs : RoundKind → Option (List String)) (hn : String → String)
    (t : Tournament) : Option Tournament :=
  [1, 2, 3, 4, 5].foldlM (fun acc n => reconcileRound obs hn acc n) t

/-- The rounds map built by `Tournament::new` before reconciliation:
round 1 from the roster, rounds 2..6 empty. -/
def initRounds (r1 : Round) : RoundKind → Option Round :=
  fun rk =>
    match rk with
    | RoundKind.Round 1 => some r1
    | RoundKind.Round 2 => some (Round.empty 2)
    | RoundKind.Round 3 => some (Round.empty 3)
    | RoundKind.Round 4 => some (Round.empty 4)
    | RoundKind.Round 5 => some (Round.empty 5)
    | RoundKind.Round 6 => some (Round.empty 6)
    | _ => none

/-- The tournament state of `Tournament::new` (src/tournament.rs lines
313-322) before the reconciliation loop runs. -/
def initTournament (teams : List Team) : Option Tournament :=
  (new_round1 teams).map fun r1 => { rounds := initRounds r1 }

/-- `Tournament::new` (src/tournament.rs lines 313-344): build the fresh
rounds, then run the reconciliation pass against the observed state.
`construct_html_name` is passed in as `hn`. -/
def Tournament.new (teams : List Team) (obs : RoundKind → Option (List String))
    (hn : String → String) : Option Tournament :=
  (initTournament teams).bind (reconcilePass obs hn)

/-- `char::to_digit(10)` as used by Rust's `u32::from_str`. -/
def digit_val (c : Char) : Option Nat :=
  if c.isDigit then some (c.toNat - 48) else none

/-- The accumulating digit loop of Rust's `u32::from_str`:
`acc = acc * 10 + digit`, failing on a non-digit character. -/
def parseDigitsAcc : List Char → Nat → Option Nat
  | [], acc => some acc
  | c :: cs, acc =>
    match digit_val c with
    | none => none
    | some d => parseDigitsAcc cs (acc * 10 + d)

/-- The optional-leading-`+` stripping of Rust's integer `from_str`
(a `-` sign is never accepted for `u32`). -/
def stripPlus : List Char → List Char
  | '+' :: rest => rest
  | cs => cs

/-- Rust's `str::parse::<u32>()`: an optional leading `+`, then one or
more ASCII digits, with the value bounded by `u32::MAX` (Rust errors
with `PosOverflow` exactly when the digit value exceeds it, and with an
empty-digits error when nothing follows the sign). -/
def rustParseU32 (s : String) : Option Nat :=
  let cs := stripPlus s.toList
  if cs.isEmpty then none
  else
    (parseDigitsAcc cs 0).bind fun v =>
      if v ≤ 4294967295 then some v else none

/-- Rust's `t.replace('%', "")`: the pattern is the single character
`'%'`, so the call removes every `'%'` from the string. -/
def remove_percent (s : String) : String :=
  String.mk (s.toList.filter fun c => c ≠ '%')

/-- The pure normalization at the heart of `get_win_percent`
(src/simulate.rs lines 147-151): `">99%" => 100`, `"<1%" => 0`,
otherwise `t.replace('%', "").parse()?`. -/
def win_percent_of_text (t : String) : Option Nat :=
  if t = ">99%" then some 100
  else if t = "<1%" then some 0
  else rustParseU32 (remove_percent t)

/-- Errors of the modelled simulation driver loop: `Panic` stands for a
Rust panic (the `unwrap`s inside `Matchup::teams`), `LookupFailed` for
the `anyhow` error bubbled up from `get_win_percent`. -/
inductive SimError where
  | Panic
  | LookupFailed (team : String)
deriving DecidableEq

/-- The matchup loop of `simulate` for one round (src/simulate.rs lines
45-74), pure skeleton: skip completed matchups, read both teams
(`Matchup::teams`, panicking when a slot is empty), look up the win
percentage for the first team, pick the winner — `draw k p` models
`random::<f32>() < (p as f32 / 100.)` at the `k`-th undecided matchup —
and collect the winners in order (the browser click is external
output). -/
def runRoundMatchups (winPerc : String → Nat → Option Nat) (draw : Nat → Nat → Bool)
    (round_num : Nat) : List Matchup → Nat → Except SimError (List String)
  | [], _ => Except.ok []
  | m :: ms, k =>
    if m.completed then runRoundMatchups winPerc draw round_num ms k
    else
      match m.teamsBoth with
      | none => Except.error SimError.Panic
      | some (a, b) =>
        match winPerc a round_num with
        | none => Except.error (SimError.LookupFailed a)
        | some p =>
          let w := if draw k p then a else b
          (runRoundMatchups winPerc draw round_num ms (k + 1)).map fun ws => w :: ws

/-- Example matchup (round 1) used to instantiate theorems at concrete
inputs. -/
def exM1 : Matchup :=
  { teams := (some "a", some "b"), winner := none, index := 0 }

/-- Example matchup (round 2, already full) for concrete instantiations. -/
def exM2 : Matchup :=
  { teams := (some "c", some "d"), winner := none, index := 0 }

/-- Example one-matchup round 1. -/
def exR1 : Round :=
  { round := RoundKind.Round 1, matchups := [exM1] }

/-- Example one-matchup round 2. -/
def exR2 : Round :=
  { round := RoundKind.Round 2, matchups := [exM2] }

/-- Example two-round tournament state. -/
def exT : Tournament :=
  { rounds := fun rk =>
      if rk = RoundKind.Round 1 then some exR1
      else if rk = RoundKind.Round 2 then some exR2
      else none }

/-- Example empty matchup. -/
def exM0 : Matchup :=
  { teams := (none, none), winner := none, index := 0 }

/-- Example one-matchup round 2 with an empty matchup. -/
def exR2e : Round :=
  { round := RoundKind.Round 2, matchups := [exM0] }

/-- Example tournament whose round-2 matchup still has room. -/
def exTe : Tournament :=
  { rounds := fun rk =>
      if rk = RoundKind.Round 1 then some exR1
      else if rk = RoundKind.Round 2 then some exR2e
      else none }

/-- Example tournament consisting only of the championship round. -/
def exT6 : Tournament :=
  { rounds := fun rk =>
      if rk = RoundKind.Round 6 then some { round := RoundKind.Round 6, matchups := [exM1] }
      else none }

/-- The canonical 64 (region, seed) pairs: 4 regions × seeds 1..16. -/
def allPairs : List (Region × Nat) :=
  ([Region.West, Region.East, Region.South, Region.Midwest].map
    (fun r => (List.range 16).map fun i => (r, i + 1))).flatten

/-- A concrete roster covering each (region, seed) pair exactly once,
with pairwise distinct names. -/
def exTeams : List Team :=
  allPairs.map fun p =>
    { name := "t" ++ Nat.repr (p.2 + 16 * p.1.to_ind), region := p.1, seed := p.2 }

/-- A concrete observed snapshot: team `"t1"` (West, seed 1) has been
observed as present in round 2; nothing else observed. -/
def exObs : RoundKind → Option (List String) :=
  fun rk => if rk = RoundKind.Round 2 then some ["t1"] else none

/-- The filled names of a team-slot pair (the pair-level version of
`slotNames`). -/
def pairNames (p : Option String × Option String) : List String :=
  (match p.1 with
    | some a => [a]
    | none => []) ++
  (match p.2 with
    | some b => [b]
    | none => [])

/-- Slot access on a team-slot pair (the pair-level `teamAt`). -/
def pairAt (p : Option String × Option String) : MatchupInd → Option String
  | MatchupInd.Team1 => p.1
  | MatchupInd.Team2 => p.2

/-- All slot names of a round's matchup list, in matchup-major,
slot-minor order. -/
def roundNames (ms : List Matchup) : List String :=
  (ms.map slotNames).flatten

/-- The team-slot pairs of one round of a tournament (an observer used
to track which parts of the state an operation leaves unchanged). -/
def teamsView (t : Tournament) (rk : RoundKind) :
    Option (List (Option String × Option String)) :=
  (t.rounds rk).map fun r => r.matchups.map fun m => m.teams

/-- The winner stored at position `j` of one round of a tournament. -/
def winnerAt (t : Tournament) (rk : RoundKind) (j : Nat) : Option (Option MatchupInd) :=
  (t.rounds rk).bind fun r => (r.matchups.get? j).map fun m => m.winner

/-- Membership of a name in the observed set of a round
(`current_results.get(&rk)` followed by `contains`). -/
def obsContains (obs : RoundKind → Option (List String)) (rk : RoundKind)
    (name : String) : Bool :=
  match obs rk with
  | some cur => cur.contains name
  | none => false

/-- The tournament reconciled from the 64-team roster and the snapshot
`exObs` (with the identity html-name sanitizer). -/
def exT4 : Tournament :=
  (Tournament.new exTeams exObs (fun s => s)).getD ⟨fun _ => none⟩

/-- Round 1 of `exT4`. -/
def exR4 : Round :=
  (exT4.rounds (RoundKind.Round 1)).getD (Round.empty 1)

/-- Matchup 0 of `exT4`'s round 1 (the one holding the observed `"t1"`). -/
def exM4a : Matchup :=
  (exR4.matchups.get? 0).getD (Matchup.new 0)

/-- Matchup 1 of `exT4`'s round 1 (neither team observed). -/
def exM4b : Matchup :=
  (exR4.matchups.get? 1).getD (Matchup.new 0)

/-- C1: for every seed `s ∈ [1,16]`, `matchup_ind` is total (returns
`some`), its value is the fixed table applied to the mirrored seed
(`17 - s` when `s > 8`), the result lies in `[0,7]`, and
`matchup_ind s = matchup_ind (17 - s)`. -/
theorem claim1_matchup_ind_total_bounded_mirror (s : Nat)
    (h1 : 1 ≤ s) (h2 : s ≤ 16) :
    ∃ r, matchup_ind s = some r ∧ r ≤ 7 ∧ matchup_ind (17 - s) = some r := by
  interval_cases s <;> exact ⟨_, rfl, by decide, rfl⟩

/-- Witness for C1 at the concrete seed 12. -/
theorem claim1_matchup_ind_witness :
    (1 ≤ 12 ∧ 12 ≤ 16) ∧
      ∃ r, matchup_ind 12 = some r ∧ r ≤ 7 ∧ matchup_ind (17 - 12) = some r :=
  ⟨by decide, claim1_matchup_ind_total_bounded_mirror 12 (by decide) (by decide)⟩

/-- When every character is a digit, the accumulating parse loop computes
`acc * 10 ^ len + value`, where `value` is the base-10 value of the digit
string (expressed through `Nat.ofDigits` on the reversed digit list). -/
theorem parseDigitsAcc_all_digits (cs : List Char) (h : ∀ c ∈ cs, c.isDigit = true) :
    ∀ acc, parseDigitsAcc cs acc =
      some (acc * 10 ^ cs.length +
        Nat.ofDigits 10 ((cs.map fun c => c.toNat - 48).reverse)) := by
  induction cs with
  | nil => intro acc; simp [parseDigitsAcc, Nat.ofDigits]
  | cons c cs ih =>
    intro acc
    have hc : c.isDigit = true := h c (by simp)
    have ihs := ih (fun x hx => h x (by simp [hx]))
    simp only [parseDigitsAcc, digit_val, hc, if_true, ihs, List.map_cons,
      List.reverse_cons, List.length_cons, Nat.ofDigits_append, Option.some.injEq]
    simp [Nat.ofDigits]
    ring

/-- A non-digit character anywhere makes the parse loop fail. -/
theorem parseDigitsAcc_non_digit (cs : List Char) (c : Char) (hc : c ∈ cs)
    (hd : ¬ c.isDigit = true) : ∀ acc, parseDigitsAcc cs acc = none := by
  induction cs with
  | nil => cases hc
  | cons a cs ih =>
    intro acc
    rcases List.mem_cons.mp hc with h | h
    · subst h
      simp [parseDigitsAcc, digit_val, hd]
    · cases hda : a.isDigit with
      | false => simp [parseDigitsAcc, digit_val, hda]
      | true => simp [parseDigitsAcc, digit_val, hda, ih h]

/-- C9: `">99%"` normalizes to 100, `"<1%"` to 0, `"73%"` parses to the
literal 73, and for every other string the parse succeeds with value `v`
exactly when, after deleting every `'%'` and an optional leading `'+'`,
a nonempty all-digit string remains whose base-10 value is `v ≤
u32::MAX`; every out-of-pattern string therefore fails with a parse
error. -/
theorem claim9_win_percent_normalization :
    win_percent_of_text ">99%" = some 100 ∧
    win_percent_of_text "<1%" = some 0 ∧
    win_percent_of_text "73%" = some 73 ∧
    (∀ s : String, s ≠ ">99%" → s ≠ "<1%" → ∀ v : Nat,
      (win_percent_of_text s = some v ↔
        (stripPlus (remove_percent s).toList ≠ [] ∧
         (∀ c ∈ stripPlus (remove_percent s).toList, c.isDigit = true) ∧
         v = Nat.ofDigits 10
            (((stripPlus (remove_percent s).toList).map fun c => c.toNat - 48).reverse) ∧
         v ≤ 4294967295))) := by
  refine ⟨by decide, by decide, by decide, ?_⟩
  intro s h1 h2 v
  have hw : win_percent_of_text s = rustParseU32 (remove_percent s) := by
    simp [win_percent_of_text, h1, h2]
  rw [hw]
  unfold rustParseU32
  rcases hcs : stripPlus (remove_percent s).toList with _ | ⟨c, rest⟩
  · simp
  · simp only [List.isEmpty_cons, Bool.false_eq_true, if_false]
    constructor
    · intro hsome
      by_cases hdig : ∀ x ∈ c :: rest, x.isDigit = true
      · rw [parseDigitsAcc_all_digits _ hdig 0] at hsome
        simp only [Option.some_bind] at hsome
        split at hsome
        · rename_i hle
          cases hsome
          exact ⟨by simp, hdig, by simp, by simpa using hle⟩
        · cases hsome
      · push_neg at hdig
        obtain ⟨x, hx, hxd⟩ := hdig
        rw [parseDigitsAcc_non_digit _ x hx (by simp [hxd]) 0] at hsome
        cases hsome
    · rintro ⟨-, hdig, hv, hle⟩
      rw [parseDigitsAcc_all_digits _ hdig 0]
      simp only [Option.some_bind, Nat.zero_mul, Nat.zero_add]
      rw [← hv, if_pos hle]

/-- Witness for C9 at concrete inputs: `"12%"` parses to 12, and `"1a%"`
is out of pattern. -/
theorem claim9_win_percent_witness :
    (("12%" : String) ≠ ">99%" ∧ ("12%" : String) ≠ "<1%" ∧
      ("1a%" : String) ≠ ">99%" ∧ ("1a%" : String) ≠ "<1%") ∧
    (win_percent_of_text "12%" = some 12 ↔
      (stripPlus (remove_percent "12%").toList ≠ [] ∧
       (∀ c ∈ stripPlus (remove_percent "12%").toList, c.isDigit = true) ∧
       12 = Nat.ofDigits 10
          (((stripPlus (remove_percent "12%").toList).map fun c => c.toNat - 48).reverse) ∧
       12 ≤ 4294967295)) ∧
    (win_percent_of_text "1a%" = some 1 ↔
      (stripPlus (remove_percent "1a%").toList ≠ [] ∧
       (∀ c ∈ stripPlus (remove_percent "1a%").toList, c.isDigit = true) ∧
       1 = Nat.ofDigits 10
          (((stripPlus (remove_percent "1a%").toList).map fun c => c.toNat - 48).reverse) ∧
       1 ≤ 4294967295)) :=
  ⟨by decide,
   claim9_win_percent_normalization.2.2.2 "12%" (by decide) (by decide) 12,
   claim9_win_percent_normalization.2.2.2 "1a%" (by decide) (by decide) 1⟩

/-- `Matchup::teams` panics exactly when a slot is empty. -/
theorem teamsBoth_eq_none_iff (m : Matchup) :
    m.teamsBoth = none ↔ (m.teams.1 = none ∨ m.teams.2 = none) := by
  unfold Matchup.teamsBoth
  rcases h1 : m.teams.1 with _ | a <;> rcases h2 : m.teams.2 with _ | b <;> simp

/-- C10: `Matchup::teams` requires both slots filled — it panics
(modelled `none`) exactly when either slot is empty — and the simulation
driver's matchup loop calls it on every undecided matchup, so whenever
the round contains an undecided matchup with fewer than two filled slots
the loop aborts with the panic (`SimError.Panic`), never with one of the
spec's error values, provided the probability lookups themselves are
available. -/
theorem claim10_partial_matchup_panics :
    (∀ m : Matchup, m.teamsBoth = none ↔ (m.teams.1 = none ∨ m.teams.2 = none)) ∧
    (∀ (winPerc : String → Nat → Option Nat) (draw : Nat → Nat → Bool)
        (round_num : Nat) (ms : List Matchup) (k : Nat),
      (∀ a b, (winPerc a b).isSome = true) →
      (∃ m ∈ ms, m.completed = false ∧ (m.teams.1 = none ∨ m.teams.2 = none)) →
      runRoundMatchups winPerc draw round_num ms k = Except.error SimError.Panic) := by
  constructor
  · exact teamsBoth_eq_none_iff
  · intro winPerc draw round_num ms
    induction ms with
    | nil => rintro k - ⟨m, hm, -⟩; cases hm
    | cons m ms ih =>
      rintro k htotal ⟨bad, hbad, hundec, hempty⟩
      rcases List.mem_cons.mp hbad with h | h
      · subst h
        have hmb : bad.teamsBoth = none := (teamsBoth_eq_none_iff bad).mpr hempty
        unfold runRoundMatchups
        rw [if_neg (by simp [hundec]), hmb]
      · by_cases hc : m.completed
        · unfold runRoundMatchups
          rw [if_pos hc]
          exact ih k htotal ⟨bad, h, hundec, hempty⟩
        · unfold runRoundMatchups
          rw [if_neg hc]
          split
          · rfl
          · split
            · rename_i a b x hteams hwp
              have hsome := htotal a round_num
              rw [hwp] at hsome
              exact Bool.noConfusion hsome
            · rw [ih (k + 1) htotal ⟨bad, h, hundec, hempty⟩]
              rfl

/-- Witness for C10: a one-matchup round whose matchup is undecided and
has an empty second slot, with a total probability oracle. -/
theorem claim10_partial_matchup_witness :
    (∀ a b, ((fun (_ : String) (_ : Nat) => some 50) a b).isSome = true) ∧
    (∃ m ∈ [Matchup.mk (some "x", none) none 0],
      m.completed = false ∧ (m.teams.1 = none ∨ m.teams.2 = none)) ∧
    runRoundMatchups (fun _ _ => some 50) (fun _ _ => true) 1
      [Matchup.mk (some "x", none) none 0] 0 = Except.error SimError.Panic :=
  ⟨fun _ _ => rfl, by decide,
    claim10_partial_matchup_panics.2 (fun _ _ => some 50) (fun _ _ => true) 1
      [Matchup.mk (some "x", none) none 0] 0 (fun _ _ => rfl) (by decide)⟩

/-- Membership test of `Matchup::includes_team`, in propositional form. -/
theorem includes_team_iff (m : Matchup) (tm : String) :
    m.includes_team tm = true ↔ (m.teams.1 = some tm ∨ m.teams.2 = some tm) := by
  unfold Matchup.includes_team Matchup.is_team_ind Matchup.teamAt
  rcases h1 : m.teams.1 with _ | a <;> rcases h2 : m.teams.2 with _ | b <;>
    simp [beq_iff_eq]

/-- `set_winning_team` never touches the team slots. -/
theorem set_winning_team_teams (m : Matchup) (tm : String) :
    (m.set_winning_team tm).teams = m.teams := by
  unfold Matchup.set_winning_team Matchup.set_winner
  split <;> rfl

/-- `set_winning_team` never touches the index field. -/
theorem set_winning_team_index (m : Matchup) (tm : String) :
    (m.set_winning_team tm).index = m.index := by
  unfold Matchup.set_winning_team Matchup.set_winner
  split <;> rfl

/-- When the team is a participant, `set_winning_team` marks exactly the
slot occupied by that team. -/
theorem set_winning_team_marks_slot (m : Matchup) (tm : String)
    (h : m.includes_team tm = true) :
    ∃ s, (m.set_winning_team tm).winner = some s ∧ m.teamAt s = some tm := by
  unfold Matchup.set_winning_team
  by_cases h1 : m.is_team_ind tm MatchupInd.Team1
  · refine ⟨MatchupInd.Team1, by simp [h1, Matchup.set_winner], ?_⟩
    unfold Matchup.is_team_ind at h1
    rcases ht : m.teamAt MatchupInd.Team1 with _ | a
    · rw [ht] at h1; cases h1
    · rw [ht] at h1; simp_all [beq_iff_eq]
  · refine ⟨MatchupInd.Team2, by simp [h1, Matchup.set_winner], ?_⟩
    unfold Matchup.includes_team at h
    have h2 : m.is_team_ind tm MatchupInd.Team2 = true := by
      rcases Bool.or_eq_true_iff.mp h with hx | hx
      · exact absurd hx h1
      · exact hx
    unfold Matchup.is_team_ind at h2
    rcases ht : m.teamAt MatchupInd.Team2 with _ | a
    · rw [ht] at h2; cases h2
    · rw [ht] at h2; simp_all [beq_iff_eq]

/-- `setWinningFirst` fails exactly when no matchup includes the team
(the `panic!("Team {} not found")` of `get_matchup_with_team_mut`). -/
theorem setWinningFirst_eq_none_iff (ms : List Matchup) (tm : String) :
    setWinningFirst ms tm = none ↔ ∀ m ∈ ms, m.includes_team tm = false := by
  induction ms with
  | nil => simp [setWinningFirst]
  | cons m ms ih =>
    unfold setWinningFirst
    cases hm : m.includes_team tm
    · simp only [Bool.false_eq_true, if_false, Option.map_eq_none', ih, List.mem_cons]
      constructor
      · rintro hall x (rfl | hx)
        · exact hm
        · exact hall x hx
      · intro hall x hx
        exact hall x (Or.inr hx)
    · simp [List.forall_mem_cons, hm]

/-- Successful `setWinningFirst` updates exactly the first matchup that
includes the team, setting its winner. -/
theorem setWinningFirst_eq_some (ms : List Matchup) (tm : String) (ms1 : List Matchup)
    (h : setWinningFirst ms tm = some ms1) :
    ∃ i m, ms.get? i = some m ∧ m.includes_team tm = true ∧
      (∀ j, j < i → ∀ m', ms.get? j = some m' → m'.includes_team tm = false) ∧
      ms1 = ms.set i (m.set_winning_team tm) := by
  induction ms generalizing ms1 with
  | nil => cases h
  | cons m ms ih =>
    unfold setWinningFirst at h
    by_cases hm : m.includes_team tm
    · rw [if_pos hm] at h
      cases h
      exact ⟨0, m, rfl, hm, by intro j hj; exact absurd hj (Nat.not_lt_zero j), rfl⟩
    · rw [if_neg hm] at h
      rcases Option.map_eq_some'.mp h with ⟨ms2, hms2, hcons⟩
      obtain ⟨i, m2, hget, hinc, hfirst, hset⟩ := ih ms2 hms2
      refine ⟨i + 1, m2, hget, hinc, ?_, ?_⟩
      · intro j hj m' hm'
        cases j with
        | zero =>
          cases hm'
          simpa using hm
        | succ j => exact hfirst j (by omega) m' hm'
      · rw [← hcons, hset]
        rfl

/-- C6: designating a matchup's winner by team identifier (the
`get_matchup_with_team_mut` + `set_winning_team` path used by
`advance_team`) resolves the identifier by membership lookup: it fails
(the modelled StateError/panic) exactly when the team participates in no
matchup of the round, and on success the resolved matchup contains the
team and its winner is set to the slot the team occupies. -/
theorem claim6_winner_by_identifier (r : Round) (tm : String) :
    (setWinningFirst r.matchups tm = none ↔
      ∀ m ∈ r.matchups, m.includes_team tm = false) ∧
    (∀ ms1, setWinningFirst r.matchups tm = some ms1 →
      ∃ i m, r.matchups.get? i = some m ∧ m.includes_team tm = true ∧
        ms1 = r.matchups.set i (m.set_winning_team tm) ∧
        ∃ s, (m.set_winning_team tm).winner = some s ∧ m.teamAt s = some tm) := by
  refine ⟨setWinningFirst_eq_none_iff r.matchups tm, ?_⟩
  intro ms1 h
  obtain ⟨i, m, hget, hinc, hfirst, hset⟩ := setWinningFirst_eq_some r.matchups tm ms1 h
  exact ⟨i, m, hget, hinc, hset, set_winning_team_marks_slot m tm hinc⟩

/-- Witness for C6: in the one-matchup round `exR1`, designating `"b"`
resolves to slot `Team2`, and designating the absent `"z"` fails. -/
theorem claim6_winner_by_identifier_witness :
    (setWinningFirst exR1.matchups "z" = none ↔
      ∀ m ∈ exR1.matchups, m.includes_team "z" = false) ∧
    (∃ i m, exR1.matchups.get? i = some m ∧ m.includes_team "b" = true ∧
      [{ exM1 with winner := some MatchupInd.Team2 }] =
        exR1.matchups.set i (m.set_winning_team "b") ∧
      ∃ s, (m.set_winning_team "b").winner = some s ∧ m.teamAt s = some "b") :=
  ⟨(claim6_winner_by_identifier exR1 "z").1,
   (claim6_winner_by_identifier exR1 "b").2
     [{ exM1 with winner := some MatchupInd.Team2 }] (by decide)⟩

/-- C7: `Matchup::add_team` on a matchup whose two slots are already
filled fails with the modelled StateError (panic), for any third
distinct team; in particular `Tournament::advance_team` fails when the
next-round target matchup at position `index / 2` is already full. -/
theorem claim7_third_team_overfill_errors :
    (∀ (m : Matchup) (tm a b : String), m.teams.1 = some a → m.teams.2 = some b →
      tm ≠ a → tm ≠ b → m.add_team tm = none) ∧
    (∀ (t : Tournament) (tm : String) (n : Nat) (r : Round) (ms1 : List Matchup)
        (m : Matchup) (rN : Round) (target : Matchup) (a b : String),
      1 ≤ n → n ≤ 5 →
      t.rounds (RoundKind.Round n) = some r →
      setWinningFirst r.matchups tm = some ms1 →
      Round.get_matchup_with_team { r with matchups := ms1 } tm = some m →
      t.rounds (RoundKind.Round (n + 1)) = some rN →
      rN.matchups.get? (m.index / 2) = some target →
      target.teams.1 = some a → target.teams.2 = some b →
      tm ≠ a → tm ≠ b →
      t.advance_team tm (RoundKind.Round n) = none) := by
  have hadd : ∀ (m : Matchup) (tm a b : String), m.teams.1 = some a →
      m.teams.2 = some b → m.add_team tm = none := by
    intro m tm a b h1 h2
    unfold Matchup.add_team
    rw [h1, h2]
  refine ⟨fun m tm a b h1 h2 _ _ => hadd m tm a b h1 h2, ?_⟩
  intro t tm n r ms1 m rN target a b hn1 hn5 ht hsw hget htN htarget hta htb hne1 hne2
  have h6 : n < 6 := by omega
  have hne : RoundKind.Round (n + 1) ≠ RoundKind.Round n := by
    intro hc
    exact absurd (RoundKind.Round.inj hc) (by omega)
  simp only [Tournament.advance_team, ht, hsw, hget, RoundKind.next_round, h6, if_true,
    Tournament.updateRound, hne, if_false, htN, htarget, hadd target tm a b hta htb]

/-- Witness for C7: adding `"x"` to the full matchup `exM2` fails, and
advancing `"a"` out of round 1 of `exT` into the already-full round-2
matchup fails. -/
theorem claim7_third_team_overfill_witness :
    exM2.add_team "x" = none ∧
    exT.advance_team "a" (RoundKind.Round 1) = none :=
  ⟨claim7_third_team_overfill_errors.1 exM2 "x" "c" "d" rfl rfl (by decide) (by decide),
   claim7_third_team_overfill_errors.2 exT "a" 1 exR1
     [{ exM1 with winner := some MatchupInd.Team1 }]
     { exM1 with winner := some MatchupInd.Team1 } exR2 exM2 "c" "d"
     (by decide) (by decide) (by decide) (by decide) (by decide) (by decide) (by decide)
     rfl rfl (by decide) (by decide)⟩

/-- C2: advancing the winner `tm` of the decided matchup at index `i` of
Round `n`, `n ∈ [1,5]`, writes `tm` into Round `n+1`'s matchup at
position `i / 2`, filling its first empty slot if that is empty and
otherwise its second slot, and leaves every other round untouched;
advancing the winner of Round 6's matchup writes into no further
round. -/
theorem claim2_advance_writes_half_index :
    (∀ (t : Tournament) (tm : String) (n i : Nat) (r : Round) (ms1 : List Matchup)
        (m : Matchup) (s : MatchupInd) (rN : Round) (target target2 : Matchup),
      1 ≤ n → n ≤ 5 →
      t.rounds (RoundKind.Round n) = some r →
      setWinningFirst r.matchups tm = some ms1 →
      Round.get_matchup_with_team { r with matchups := ms1 } tm = some m →
      m.index = i →
      m.winner = some s → m.teamAt s = some tm →
      t.rounds (RoundKind.Round (n + 1)) = some rN →
      rN.matchups.get? (i / 2) = some target →
      target.add_team tm = some target2 →
      ∃ t', t.advance_team tm (RoundKind.Round n) = some t' ∧
        t'.rounds (RoundKind.Round (n + 1)) =
          some { rN with matchups := rN.matchups.set (i / 2) target2 } ∧
        t'.rounds (RoundKind.Round n) = some { r with matchups := ms1 } ∧
        (∀ rk, rk ≠ RoundKind.Round n → rk ≠ RoundKind.Round (n + 1) →
          t'.rounds rk = t.rounds rk) ∧
        ((target.teams.1 = none ∧
            target2 = { target with teams := (some tm, target.teams.2) }) ∨
         (target.teams.1 ≠ none ∧ target.teams.2 = none ∧
            target2 = { target with teams := (target.teams.1, some tm) }))) ∧
    (∀ (t : Tournament) (tm : String) (r : Round) (ms1 : List Matchup) (m : Matchup),
      t.rounds (RoundKind.Round 6) = some r →
      setWinningFirst r.matchups tm = some ms1 →
      Round.get_matchup_with_team { r with matchups := ms1 } tm = some m →
      ∃ t', t.advance_team tm (RoundKind.Round 6) = some t' ∧
        t'.rounds (RoundKind.Round 6) = some { r with matchups := ms1 } ∧
        ∀ rk, rk ≠ RoundKind.Round 6 → t'.rounds rk = t.rounds rk) := by
  constructor
  · intro t tm n i r ms1 m s rN target target2 hn1 hn5 ht hsw hget hidx hwin hslot htN
      htarget hadd
    have h6 : n < 6 := by omega
    have hne : RoundKind.Round (n + 1) ≠ RoundKind.Round n := fun hc =>
      absurd (RoundKind.Round.inj hc) (by omega)
    refine ⟨(t.updateRound (RoundKind.Round n) { r with matchups := ms1 }).updateRound
        (RoundKind.Round (n + 1)) { rN with matchups := rN.matchups.set (i / 2) target2 },
      ?_, ?_, ?_, ?_, ?_⟩
    · simp only [Tournament.advance_team, ht, hsw, hget, hidx, RoundKind.next_round, h6,
        if_true, Tournament.updateRound, hne, if_false, htN, htarget, hadd]
    · simp [Tournament.updateRound]
    · simp [Tournament.updateRound, hne]
    · intro rk h1 h2
      simp [Tournament.updateRound, h1, h2]
    · unfold Matchup.add_team at hadd
      rcases h1 : target.teams.1 with _ | a <;> rw [h1] at hadd
      · cases hadd
        exact Or.inl ⟨rfl, rfl⟩
      · rcases h2 : target.teams.2 with _ | b <;> rw [h2] at hadd
        · cases hadd
          exact Or.inr ⟨Option.some_ne_none a, rfl, rfl⟩
        · cases hadd
  · intro t tm r ms1 m ht hsw hget
    refine ⟨t.updateRound (RoundKind.Round 6) { r with matchups := ms1 }, ?_, ?_, ?_⟩
    · simp only [Tournament.advance_team, ht, hsw, hget, RoundKind.next_round]
      rfl
    · simp [Tournament.updateRound]
    · intro rk h1
      simp [Tournament.updateRound, h1]

/-- Witness for C2: advancing `"a"` out of round 1 of `exTe` fills slot
1 of round 2's matchup 0, and advancing `"a"` in the round-6-only
tournament `exT6` touches only round 6. -/
theorem claim2_advance_writes_half_index_witness :
    (∃ t', exTe.advance_team "a" (RoundKind.Round 1) = some t' ∧
      t'.rounds (RoundKind.Round 2) =
        some { exR2e with matchups := (exR2e.matchups.set 0
          ({ exM0 with teams := (some "a", none) })) } ∧
      t'.rounds (RoundKind.Round 1) =
        some { exR1 with matchups := [{ exM1 with winner := some MatchupInd.Team1 }] } ∧
      (∀ rk, rk ≠ RoundKind.Round 1 → rk ≠ RoundKind.Round 2 →
        t'.rounds rk = exTe.rounds rk) ∧
      ((exM0.teams.1 = none ∧
          { exM0 with teams := (some "a", none) } =
            { exM0 with teams := (some "a", exM0.teams.2) }) ∨
       (exM0.teams.1 ≠ none ∧ exM0.teams.2 = none ∧
          { exM0 with teams := (some "a", none) } =
            { exM0 with teams := (exM0.teams.1, some "a") }))) ∧
    (∃ t', exT6.advance_team "a" (RoundKind.Round 6) = some t' ∧
      t'.rounds (RoundKind.Round 6) =
        some { round := RoundKind.Round 6,
               matchups := [{ exM1 with winner := some MatchupInd.Team1 }] } ∧
      ∀ rk, rk ≠ RoundKind.Round 6 → t'.rounds rk = exT6.rounds rk) :=
  ⟨claim2_advance_writes_half_index.1 exTe "a" 1 0 exR1
      [{ exM1 with winner := some MatchupInd.Team1 }]
      { exM1 with winner := some MatchupInd.Team1 } MatchupInd.Team1 exR2e exM0
      { exM0 with teams := (some "a", none) }
      (by decide) (by decide) (by decide) (by decide) (by decide) (by decide) (by decide)
      (by decide) (by decide) (by decide) (by decide),
   claim2_advance_writes_half_index.2 exT6 "a"
      { round := RoundKind.Round 6, matchups := [exM1] }
      [{ exM1 with winner := some MatchupInd.Team1 }]
      { exM1 with winner := some MatchupInd.Team1 }
      (by decide) (by decide) (by decide)⟩

/-- `includes_team` depends only on the team slots. -/
theorem includes_team_of_teams_eq (m m' : Matchup) (h : m'.teams = m.teams) (tm : String) :
    m'.includes_team tm = m.includes_team tm := by
  unfold Matchup.includes_team Matchup.is_team_ind Matchup.teamAt
  rw [h]

/-- `is_team_ind` depends only on the team slots. -/
theorem is_team_ind_of_teams_eq (m m' : Matchup) (h : m'.teams = m.teams)
    (tm : String) (ind : MatchupInd) :
    m'.is_team_ind tm ind = m.is_team_ind tm ind := by
  unfold Matchup.is_team_ind Matchup.teamAt
  rw [h]

/-- Designating the same winner twice on one matchup overwrites: the
second `set_winning_team` is a no-op. -/
theorem set_winning_team_idem (m : Matchup) (tm : String) :
    (m.set_winning_team tm).set_winning_team tm = m.set_winning_team tm := by
  by_cases h : m.is_team_ind tm MatchupInd.Team1
  · have e1 : m.set_winning_team tm = { m with winner := some MatchupInd.Team1 } := by
      unfold Matchup.set_winning_team Matchup.set_winner
      rw [if_pos h]
    rw [e1]
    unfold Matchup.set_winning_team Matchup.set_winner
    rw [if_pos (by
      rw [is_team_ind_of_teams_eq m ({ m with winner := some MatchupInd.Team1 }) rfl]
      exact h)]
  · have e1 : m.set_winning_team tm = { m with winner := some MatchupInd.Team2 } := by
      unfold Matchup.set_winning_team Matchup.set_winner
      rw [if_neg h]
    rw [e1]
    unfold Matchup.set_winning_team Matchup.set_winner
    rw [if_neg (by
      rw [is_team_ind_of_teams_eq m ({ m with winner := some MatchupInd.Team2 }) rfl]
      exact h)]

/-- Converse direction of `setWinningFirst_eq_some`: if position `i`
holds the first matchup including the team, `setWinningFirst` updates
exactly there. -/
theorem setWinningFirst_of_first (ms : List Matchup) (tm : String) (i : Nat) (m : Matchup)
    (hget : ms.get? i = some m) (hinc : m.includes_team tm = true)
    (hfirst : ∀ j, j < i → ∀ m', ms.get? j = some m' → m'.includes_team tm = false) :
    setWinningFirst ms tm = some (ms.set i (m.set_winning_team tm)) := by
  induction ms generalizing i with
  | nil => cases hget
  | cons m0 ms ih =>
    cases i with
    | zero =>
      cases hget
      unfold setWinningFirst
      rw [if_pos hinc]
      rfl
    | succ i =>
      have h0 : m0.includes_team tm = false := hfirst 0 (Nat.succ_pos i) m0 rfl
      unfold setWinningFirst
      rw [if_neg (by simp [h0]),
        ih i hget (fun j hj m' hm' => hfirst (j + 1) (by omega) m' hm')]
      rfl

/-- Extensionality for the modelled tournament map. -/
theorem Tournament.ext_rounds (t t' : Tournament)
    (h : ∀ rk, t.rounds rk = t'.rounds rk) : t = t' := by
  rcases t with ⟨f⟩
  rcases t' with ⟨g⟩
  have hfg : f = g := funext h
  rw [hfg]

/-- Re-inserting the same round twice is one insertion. -/
theorem updateRound_updateRound_same (t : Tournament) (rk : RoundKind) (r : Round) :
    (t.updateRound rk r).updateRound rk r = t.updateRound rk r := by
  apply Tournament.ext_rounds
  intro k
  unfold Tournament.updateRound
  by_cases h : k = rk <;> simp [h]

/-- C8 (amended): designating a winner twice for the same matchup is
idempotent at the matchup level — the second `set_winning_team`
overwrites the stored winner and leaves the team slots (and hence the
number of occupied slots) unchanged — and repeating `advance_team` for
the same winner leaves the Tournament unchanged for the final round
(Round 6), which writes into no further round.  (For rounds 1–5 a
repeated advancement is NOT the identity: it `add_team`s the winner into
the next round again; see the counterexample.) -/
theorem claim8_double_designation_amended :
    (∀ (m : Matchup) (tm : String),
      (m.set_winning_team tm).set_winning_team tm = m.set_winning_team tm ∧
      (m.set_winning_team tm).teams = m.teams) ∧
    (∀ (t t1 : Tournament) (tm : String),
      t.advance_team tm (RoundKind.Round 6) = some t1 →
      t1.advance_team tm (RoundKind.Round 6) = some t1) := by
  constructor
  · intro m tm
    exact ⟨set_winning_team_idem m tm, set_winning_team_teams m tm⟩
  · intro t t1 tm hadv
    unfold Tournament.advance_team at hadv
    rcases h1 : t.rounds (RoundKind.Round 6) with _ | r
    · simp only [h1] at hadv
      exact Option.noConfusion hadv
    · simp only [h1] at hadv
      rcases h2 : setWinningFirst r.matchups tm with _ | ms1
      · simp only [h2] at hadv
        exact Option.noConfusion hadv
      · simp only [h2] at hadv
        rcases h3 : Round.get_matchup_with_team { r with matchups := ms1 } tm with _ | mf
        · simp only [h3] at hadv
          exact Option.noConfusion hadv
        · simp only [h3, RoundKind.next_round] at hadv
          cases hadv
          obtain ⟨i, m0, hget, hinc, hfirst, hset⟩ := setWinningFirst_eq_some r.matchups tm ms1 h2
          obtain ⟨hlen, -⟩ := List.get?_eq_some.mp hget
          have hms1i : ms1.get? i = some (m0.set_winning_team tm) := by
            rw [hset]
            exact List.get?_set_eq_of_lt _ hlen
          have hinc1 : (m0.set_winning_team tm).includes_team tm = true := by
            rw [includes_team_of_teams_eq m0 _ (set_winning_team_teams m0 tm)]
            exact hinc
          have hfirst1 : ∀ j, j < i → ∀ m', ms1.get? j = some m' →
              m'.includes_team tm = false := by
            intro j hj m' hm'
            have hne2 : (r.matchups.set i (m0.set_winning_team tm)).get? j =
                r.matchups.get? j :=
              List.get?_set_ne _ _ (by omega)
            rw [hset, hne2] at hm'
            exact hfirst j hj m' hm'
          have hsw1 : setWinningFirst ms1 tm = some ms1 := by
            rw [setWinningFirst_of_first ms1 tm i _ hms1i hinc1 hfirst1,
              set_winning_team_idem, hset, List.set_set]
          have hfindS : (Round.get_matchup_with_team { r with matchups := ms1 } tm).isSome := by
            unfold Round.get_matchup_with_team
            exact List.find?_isSome.mpr ⟨m0.set_winning_team tm, List.get?_mem hms1i, hinc1⟩
          rcases hfind2 : Round.get_matchup_with_team { r with matchups := ms1 } tm with _ | mg
          · rw [hfind2] at hfindS; cases hfindS
          · have ht1r : (t.updateRound (RoundKind.Round 6)
                { r with matchups := ms1 }).rounds (RoundKind.Round 6) =
                some { r with matchups := ms1 } := by
              simp [Tournament.updateRound]
            unfold Tournament.advance_team
            simp only [ht1r, hsw1, hfind2, RoundKind.next_round]
            exact congrArg some (updateRound_updateRound_same t (RoundKind.Round 6)
              { r with matchups := ms1 })

/-- Witness for C8 (amended): the matchup-level idempotence at `exM1`
with `"a"`, and the round-6 repeat advancement on `exT6`. -/
theorem claim8_double_designation_witness :
    ((exM1.set_winning_team "a").set_winning_team "a" = exM1.set_winning_team "a" ∧
      (exM1.set_winning_team "a").teams = exM1.teams) ∧
    (exT6.updateRound (RoundKind.Round 6)
        { round := RoundKind.Round 6,
          matchups := [{ exM1 with winner := some MatchupInd.Team1 }] }).advance_team "a"
        (RoundKind.Round 6) =
      some (exT6.updateRound (RoundKind.Round 6)
        { round := RoundKind.Round 6,
          matchups := [{ exM1 with winner := some MatchupInd.Team1 }] }) :=
  ⟨claim8_double_designation_amended.1 exM1 "a",
   claim8_double_designation_amended.2 exT6 _ "a" rfl⟩

/-- C8 counterexample: repeating the advancement of the same winner does
NOT leave the Tournament unchanged in general — advancing `"a"` out of
round 1 of `exTe` twice duplicates `"a"` in round 2's matchup, so the
round-2 state after two advancements differs from the state after
one. -/
theorem claim8_repeat_advance_counterexample :
    ((exTe.advance_team "a" (RoundKind.Round 1)).bind
        (fun t1 => t1.advance_team "a" (RoundKind.Round 1))).map
        (fun t => t.rounds (RoundKind.Round 2)) ≠
      (exTe.advance_team "a" (RoundKind.Round 1)).map
        (fun t => t.rounds (RoundKind.Round 2)) := by
  decide

/-- With no observed entry for the next round, one reconciliation
iteration is the identity (provided the round itself is present). -/
theorem reconcileRound_empty_obs (hn : String → String) (t : Tournament) (n : Nat)
    (h : (t.rounds (RoundKind.Round n)).isSome = true) :
    reconcileRound (fun _ => none) hn t n = some t := by
  unfold reconcileRound
  rcases hr : t.rounds (RoundKind.Round n) with _ | r
  · rw [hr] at h
    cases h
  · rfl

/-- The whole reconciliation pass against an all-empty snapshot is the
identity when rounds 1..5 are present. -/
theorem reconcilePass_empty_obs (hn : String → String) (t : Tournament)
    (h : ∀ n, 1 ≤ n → n ≤ 5 → (t.rounds (RoundKind.Round n)).isSome = true) :
    reconcilePass (fun _ => none) hn t = some t := by
  unfold reconcilePass
  simp [List.foldlM_cons, List.foldlM_nil,
    reconcileRound_empty_obs hn t 1 (h 1 (by omega) (by omega)),
    reconcileRound_empty_obs hn t 2 (h 2 (by omega) (by omega)),
    reconcileRound_empty_obs hn t 3 (h 3 (by omega) (by omega)),
    reconcileRound_empty_obs hn t 4 (h 4 (by omega) (by omega)),
    reconcileRound_empty_obs hn t 5 (h 5 (by omega) (by omega))]

/-- C5 (amended): the reconciliation derivation is the identity on the
freshly built tournament when the observed snapshot is empty —
`Tournament::new` with no observed results equals the fresh unplayed
tournament.  (Full idempotence of the pass fails on the code: re-running
the pass on an already-reconciled tournament `add_team`s every observed
team into the next round again; see the counterexample.) -/
theorem claim5_empty_snapshot_reconcile_identity (teams : List Team)
    (hn : String → String) :
    Tournament.new teams (fun _ => none) hn = initTournament teams := by
  unfold Tournament.new
  rcases hI : initTournament teams with _ | t0
  · rfl
  · have hrounds : ∀ n, 1 ≤ n → n ≤ 5 → (t0.rounds (RoundKind.Round n)).isSome = true := by
      unfold initTournament at hI
      rcases Option.map_eq_some'.mp hI with ⟨r1, hr1, ht0⟩
      subst ht0
      intro n h1 h5
      interval_cases n <;> rfl
    simpa using reconcilePass_empty_obs hn t0 hrounds

/-- C5 counterexample: the reconciliation pass is not idempotent.  For
the 64-team roster `exTeams` and the consistent snapshot `exObs`
(consistent: it is exactly the round-2 occupancy produced by `"t1"`
winning its round-1 matchup, as the middle conjunct shows), running the
pass a second time on the reconciled tournament changes round 2 —
`"t1"` is added to its matchup again. -/
theorem claim5_reconcile_not_idempotent_counterexample :
    (Tournament.new exTeams exObs id).isSome = true ∧
    ((initTournament exTeams).bind
        (fun t0 => t0.advance_team "t1" (RoundKind.Round 1))).bind
        (fun t => (t.rounds (RoundKind.Round 2)).map
          (fun r => r.matchups.map (fun m => m.teams))) =
      some ((some "t1", none) :: List.replicate 15 ((none : Option String), (none : Option String))) ∧
    ((Tournament.new exTeams exObs id).bind (reconcilePass exObs id)).map
        (fun t => t.rounds (RoundKind.Round 2)) ≠
      (Tournament.new exTeams exObs id).map
        (fun t => t.rounds (RoundKind.Round 2)) := by
  refine ⟨by decide, by decide, by decide⟩

/-- Membership in `slotNames` is exactly slot occupancy. -/
theorem mem_slotNames (m : Matchup) (tm : String) :
    tm ∈ slotNames m ↔ (m.teams.1 = some tm ∨ m.teams.2 = some tm) := by
  unfold slotNames
  rcases h1 : m.teams.1 with _ | a <;> rcases h2 : m.teams.2 with _ | b <;>
    simp [eq_comm]

/-- Each of the 32 round-1 slots is hit by exactly two of the canonical
64 (region, seed) pairs. -/
theorem allPairs_countP_slot : ∀ j, j < 32 →
    allPairs.countP (fun p => pair_slot p == some j) = 2 := by
  decide

/-- Every canonical pair has a slot, and it is below 32. -/
theorem allPairs_slot_lt : ∀ p ∈ allPairs,
    (pair_slot p).isSome = true ∧ (pair_slot p).getD 32 < 32 := by
  decide

/-- The insertion fold of `Round::new_round1`: when every team's slot is
in range and no slot receives more teams than its remaining capacity,
the fold succeeds, and each matchup ends with its original names
followed by the names of the teams aimed at it, in list order; winners
and index fields are untouched and matchups stay packed (second slot
filled only after the first). -/
theorem insert_fold_spec (l : List Team) (r : Round)
    (hslot : ∀ t ∈ l, ∃ j, team_slot t = some j ∧ j < r.matchups.length)
    (hpack : ∀ m ∈ r.matchups, m.teams.1 = none → m.teams.2 = none)
    (hcap : ∀ j m, r.matchups.get? j = some m →
      (slotNames m).length + l.countP (fun t => team_slot t == some j) ≤ 2) :
    ∃ r', List.foldlM insert_step r l = some r' ∧
      r'.round = r.round ∧
      r'.matchups.length = r.matchups.length ∧
      ∀ j m, r.matchups.get? j = some m →
        ∃ m', r'.matchups.get? j = some m' ∧
          m'.winner = m.winner ∧ m'.index = m.index ∧
          (m'.teams.1 = none → m'.teams.2 = none) ∧
          slotNames m' = slotNames m ++
            (l.filter (fun t => team_slot t == some j)).map Team.name := by
  induction l generalizing r with
  | nil =>
    refine ⟨r, rfl, rfl, rfl, ?_⟩
    intro j m hm
    exact ⟨m, hm, rfl, rfl, fun h => hpack m (List.get?_mem hm) h, by simp⟩
  | cons t l ih =>
    obtain ⟨j0, hj0, hj0lt⟩ := hslot t (by simp)
    rcases hm0 : r.matchups.get? j0 with _ | m0
    · rw [List.get?_eq_get hj0lt] at hm0
      cases hm0
    · -- capacity at j0 leaves room for t
      have hcnt : (t :: l).countP (fun t => team_slot t == some j0) =
          l.countP (fun t => team_slot t == some j0) + 1 :=
        List.countP_cons_of_pos _ _ (by simp [hj0])
      have hcap0 := hcap j0 m0 hm0
      rw [hcnt] at hcap0
      have hroom : (slotNames m0).length ≤ 1 := by omega
      -- add_team succeeds, appending the name
      have hstep : ∃ m0', m0.add_team t.name = some m0' ∧
          slotNames m0' = slotNames m0 ++ [t.name] ∧
          m0'.winner = m0.winner ∧ m0'.index = m0.index ∧
          (m0'.teams.1 = none → m0'.teams.2 = none) := by
        rcases h1 : m0.teams.1 with _ | a
        · have h2 : m0.teams.2 = none := hpack m0 (List.get?_mem hm0) h1
          refine ⟨{ m0 with teams := (some t.name, m0.teams.2) }, ?_, ?_, rfl, rfl, ?_⟩
          · unfold Matchup.add_team
            rw [h1]
          · unfold slotNames
            rw [h2]
            simp [h1, h2]
          · intro hcon
            cases hcon
        · rcases h2 : m0.teams.2 with _ | b
          · refine ⟨{ m0 with teams := (m0.teams.1, some t.name) }, ?_, ?_, rfl, rfl, ?_⟩
            · unfold Matchup.add_team
              rw [h1, h2]
            · unfold slotNames
              simp [h1, h2]
            · intro hcon
              rw [h1] at hcon
              cases hcon
          · exfalso
            have : (slotNames m0).length = 2 := by
              unfold slotNames
              rw [h1, h2]
              rfl
            omega
      obtain ⟨m0', hadd, hnames0, hwin0, hidx0, hpack0⟩ := hstep
      -- one step of the fold
      have hstep1 : insert_step r t =
          some { r with matchups := r.matchups.set j0 m0' } := by
        simp only [insert_step, Round.add_team_to_matchup, hj0, hm0, hadd, Option.map_some']
      -- invariants for the tail
      have hlen1 : ({ r with matchups := r.matchups.set j0 m0' } : Round).matchups.length =
          r.matchups.length := by
        simp
      have hslot1 : ∀ x ∈ l, ∃ j, team_slot x = some j ∧
          j < ({ r with matchups := r.matchups.set j0 m0' } : Round).matchups.length := by
        intro x hx
        obtain ⟨j, hj, hjlt⟩ := hslot x (by simp [hx])
        exact ⟨j, hj, by simpa [hlen1] using hjlt⟩
      have hpack1 : ∀ m ∈ ({ r with matchups := r.matchups.set j0 m0' } : Round).matchups,
          m.teams.1 = none → m.teams.2 = none := by
        intro m hm
        rcases List.mem_or_eq_of_mem_set hm with h | h
        · exact hpack m h
        · subst h
          exact hpack0
      have hcap1 : ∀ j m,
          ({ r with matchups := r.matchups.set j0 m0' } : Round).matchups.get? j = some m →
          (slotNames m).length + l.countP (fun t => team_slot t == some j) ≤ 2 := by
        intro j m hm
        by_cases hjj : j = j0
        · subst hjj
          have hset : (r.matchups.set j m0').get? j = some m0' :=
            List.get?_set_eq_of_lt _ hj0lt
          simp only [hset] at hm
          cases hm
          have hlen0 : (slotNames m0').length = (slotNames m0).length + 1 := by
            rw [hnames0]
            simp
          omega
        · have hne2 : (r.matchups.set j0 m0').get? j = r.matchups.get? j :=
            List.get?_set_ne _ _ (by omega)
          simp only [hne2] at hm
          have hc := hcap j m hm
          have hmono : l.countP (fun t => team_slot t == some j) ≤
              (t :: l).countP (fun t => team_slot t == some j) := by
            rw [List.countP_cons]
            omega
          omega
      obtain ⟨r', hfold, hround, hlen, hspec⟩ := ih
        { r with matchups := r.matchups.set j0 m0' } hslot1 hpack1 hcap1
      refine ⟨r', ?_, hround, by simpa [hlen1] using hlen, ?_⟩
      · rw [List.foldlM_cons, hstep1]
        simpa using hfold
      · intro j m hm
        by_cases hjj : j = j0
        · subst hjj
          rw [hm0] at hm
          cases hm
          have hset : (r.matchups.set j m0').get? j = some m0' :=
            List.get?_set_eq_of_lt _ hj0lt
          obtain ⟨m', hm', hw, hi, hp, hn⟩ := hspec j m0' (by simpa using hset)
          refine ⟨m', hm', by rw [hw, hwin0], by rw [hi, hidx0], hp, ?_⟩
          rw [hn, hnames0]
          have hfilter : (t :: l).filter (fun t => team_slot t == some j) =
              t :: l.filter (fun t => team_slot t == some j) := by
            rw [List.filter_cons_of_pos (by simp [hj0])]
          rw [hfilter]
          simp
        · have hne2 : (r.matchups.set j0 m0').get? j = r.matchups.get? j :=
            List.get?_set_ne _ _ (by omega)
          obtain ⟨m', hm', hw, hi, hp, hn⟩ := hspec j m (by
            simp only [hne2]
            exact hm)
          refine ⟨m', hm', hw, hi, hp, ?_⟩
          rw [hn]
          have hfilter : (t :: l).filter (fun t => team_slot t == some j) =
              l.filter (fun t => team_slot t == some j) := by
            rw [List.filter_cons_of_neg (by simp [hj0]; omega)]
          rw [hfilter]

/-- The fresh round 1 has 32 matchups. -/
theorem round1_empty_length : (Round.empty 1).matchups.length = 32 := by
  decide

/-- The fresh round 1 has the empty matchup `j` at position `j`. -/
theorem round1_empty_get? : ∀ j, j < 32 →
    (Round.empty 1).matchups.get? j = some (Matchup.new j) := by
  decide

/-- A matchup with two slot names has both slots filled. -/
theorem both_some_of_two_names (m : Matchup)
    (hlen : (slotNames m).length = 2) :
    m.teams.1.isSome = true ∧ m.teams.2.isSome = true := by
  unfold slotNames at hlen
  rcases h1 : m.teams.1 with _ | a <;> rcases h2 : m.teams.2 with _ | b <;>
    rw [h1, h2] at hlen <;> simp_all

/-- C3: building round 1 from 64 teams covering all 64 distinct
(region, seed) pairs succeeds, yields exactly 32 matchups — each with
exactly two filled team slots and no decided winner — and places every
team into the matchup at position `matchup_ind(seed) + 8 * region_index`
(whose index field is that position). -/
theorem claim3_round1_construction (teams : List Team)
    (h : (teams.map team_pair).Perm allPairs) :
    ∃ r, new_round1 teams = some r ∧
      r.matchups.length = 32 ∧
      (∀ m ∈ r.matchups, m.teams.1.isSome = true ∧ m.teams.2.isSome = true ∧
        m.winner = none) ∧
      (∀ t ∈ teams, ∃ j, team_slot t = some j ∧
        ∃ m, r.matchups.get? j = some m ∧ m.index = j ∧
          m.includes_team t.name = true) := by
  set sorted := teams.insertionSort (fun a b => team_sort_key a ≤ team_sort_key b)
    with hsorted
  have hperm : List.Perm sorted teams := List.perm_insertionSort _ _
  have hpairs : List.Perm (sorted.map team_pair) allPairs := (hperm.map team_pair).trans h
  have hAPlen : allPairs.length = 64 := by decide
  have hlen64 : sorted.length = 64 := by
    have h1 := hpairs.length_eq
    rw [List.length_map] at h1
    rw [h1, hAPlen]
  have hcnt : ∀ j, j < 32 → sorted.countP (fun t => team_slot t == some j) = 2 := by
    intro j hj32
    have h2 := hpairs.countP_eq (fun p => pair_slot p == some j)
    rw [List.countP_map] at h2
    rw [allPairs_countP_slot j hj32] at h2
    exact h2
  have hslot : ∀ t ∈ sorted, ∃ j, team_slot t = some j ∧
      j < (Round.empty 1).matchups.length := by
    intro t ht
    have hmem : team_pair t ∈ allPairs := hpairs.mem_iff.mp (List.mem_map_of_mem _ ht)
    have hsl := allPairs_slot_lt _ hmem
    rcases hps : pair_slot (team_pair t) with _ | j
    · rw [hps] at hsl
      cases hsl.1
    · refine ⟨j, hps, ?_⟩
      have := hsl.2
      rw [hps] at this
      simp only [Option.getD_some] at this
      rw [round1_empty_length]
      exact this
  have hpackE : ∀ m ∈ (Round.empty 1).matchups, m.teams.1 = none → m.teams.2 = none := by
    intro m hm
    simp only [Round.empty] at hm
    obtain ⟨i, -, rfl⟩ := List.mem_map.mp hm
    intro
    rfl
  have hcapE : ∀ j m, (Round.empty 1).matchups.get? j = some m →
      (slotNames m).length + sorted.countP (fun t => team_slot t == some j) ≤ 2 := by
    intro j m hm
    have hjlt : j < 32 := by
      rcases List.get?_eq_some.mp hm with ⟨hlt, -⟩
      rw [round1_empty_length] at hlt
      exact hlt
    rw [round1_empty_get? j hjlt] at hm
    cases hm
    rw [hcnt j hjlt]
    have : slotNames (Matchup.new j) = [] := rfl
    rw [this]
    simp
  obtain ⟨r', hfold, hround, hlenr, hspec⟩ :=
    insert_fold_spec sorted (Round.empty 1) hslot hpackE hcapE
  have hnew : new_round1 teams = some r' := by
    simp only [new_round1]
    rw [← hsorted]
    have hcond : (Round.empty 1).round.matchup_count * 2 = sorted.length := by
      rw [hlen64]
      decide
    rw [if_pos hcond]
    exact hfold
  refine ⟨r', hnew, by rw [hlenr, round1_empty_length], ?_, ?_⟩
  · intro m hm
    obtain ⟨j, hj⟩ := List.mem_iff_get?.mp hm
    have hjlt : j < 32 := by
      rcases List.get?_eq_some.mp hj with ⟨hlt, -⟩
      rw [hlenr, round1_empty_length] at hlt
      exact hlt
    obtain ⟨m', hm', hw, hi, hp, hn⟩ := hspec j (Matchup.new j) (round1_empty_get? j hjlt)
    rw [hj] at hm'
    cases hm'
    have hnames2 : (slotNames m).length = 2 := by
      rw [hn]
      have he : slotNames (Matchup.new j) = [] := rfl
      rw [he, List.nil_append, List.length_map, ← List.countP_eq_length_filter,
        hcnt j hjlt]
    obtain ⟨hs1, hs2⟩ := both_some_of_two_names m hnames2
    exact ⟨hs1, hs2, hw⟩
  · intro t ht
    have htS : t ∈ sorted := hperm.mem_iff.mpr ht
    obtain ⟨j, hj, hjlt0⟩ := hslot t htS
    have hjlt : j < 32 := by
      rw [round1_empty_length] at hjlt0
      exact hjlt0
    obtain ⟨m', hm', hw, hi, hp, hn⟩ := hspec j (Matchup.new j) (round1_empty_get? j hjlt)
    refine ⟨j, hj, m', hm', hi, ?_⟩
    have hmemf : t ∈ sorted.filter (fun t => team_slot t == some j) :=
      List.mem_filter.mpr ⟨htS, by simp [hj]⟩
    have hname : t.name ∈ slotNames m' := by
      rw [hn]
      have he : slotNames (Matchup.new j) = [] := rfl
      rw [he, List.nil_append]
      exact List.mem_map_of_mem _ hmemf
    rcases (mem_slotNames m' t.name).mp hname with hx | hx
    · exact (includes_team_iff m' t.name).mpr (Or.inl hx)
    · exact (includes_team_iff m' t.name).mpr (Or.inr hx)

/-- Witness for C3 at the concrete full roster `exTeams`. -/
theorem claim3_round1_construction_witness :
    (exTeams.map team_pair).Perm allPairs ∧
    ∃ r, new_round1 exTeams = some r ∧
      r.matchups.length = 32 ∧
      (∀ m ∈ r.matchups, m.teams.1.isSome = true ∧ m.teams.2.isSome = true ∧
        m.winner = none) ∧
      (∀ t ∈ exTeams, ∃ j, team_slot t = some j ∧
        ∃ m, r.matchups.get? j = some m ∧ m.index = j ∧
          m.includes_team t.name = true) :=
  ⟨by decide, claim3_round1_construction exTeams (by decide)⟩

/-- `slotNames` is `pairNames` of the team pair. -/
theorem slotNames_eq_pairNames (m : Matchup) : slotNames m = pairNames m.teams := rfl

/-- `teamAt` is `pairAt` of the team pair. -/
theorem teamAt_eq_pairAt (m : Matchup) (s : MatchupInd) :
    m.teamAt s = pairAt m.teams s := by
  cases s <;> rfl

/-- Setting a list position to the value it already holds is the
identity. -/
theorem list_set_same {α : Type} (l : List α) (i : Nat) (a : α)
    (h : l.get? i = some a) : l.set i a = l := by
  induction l generalizing i with
  | nil => cases h
  | cons x l ih =>
    cases i with
    | zero =>
      cases h
      rfl
    | succ i =>
      simp only [List.set_cons_succ]
      rw [ih i h]

/-- In a duplicate-free flattened list, an element determines its
component: the same value cannot occur in the components at two
different positions. -/
theorem nodup_flatten_unique_component {α : Type} [DecidableEq α] (L : List (List α))
    (h : L.flatten.Nodup) :
    ∀ i j xi xj (a : α), L.get? i = some xi → L.get? j = some xj →
      a ∈ xi → a ∈ xj → i = j := by
  induction L with
  | nil => intro i j xi xj a hi; cases hi
  | cons x L ih =>
    intro i j xi xj a hi hj hai haj
    rw [List.flatten_cons, List.nodup_append] at h
    obtain ⟨hx, hL, hdisj⟩ := h
    cases i with
    | zero =>
      cases hi
      cases j with
      | zero => rfl
      | succ j =>
        exfalso
        exact hdisj hai (List.mem_flatten.mpr ⟨xj, List.get?_mem hj, haj⟩)
    | succ i =>
      cases j with
      | zero =>
        cases hj
        exfalso
        exact hdisj haj (List.mem_flatten.mpr ⟨xi, List.get?_mem hi, hai⟩)
      | succ j =>
        rw [ih hL i j xi xj a hi hj hai haj]

/-- Each component of a duplicate-free flattened list is itself
duplicate-free. -/
theorem nodup_flatten_component {α : Type} (L : List (List α))
    (h : L.flatten.Nodup) : ∀ x ∈ L, x.Nodup := by
  induction L with
  | nil => intro x hx; cases hx
  | cons y L ih =>
    rw [List.flatten_cons, List.nodup_append] at h
    intro x hx
    rcases List.mem_cons.mp hx with rfl | hx
    · exact h.1
    · exact ih h.2.1 x hx

/-- Looking up the inserted round. -/
theorem updateRound_rounds_self (t : Tournament) (rk : RoundKind) (r : Round) :
    (t.updateRound rk r).rounds rk = some r := by
  simp [Tournament.updateRound]

/-- Looking up any other round after an insertion. -/
theorem updateRound_rounds_ne (t : Tournament) (rk : RoundKind) (r : Round)
    (rk' : RoundKind) (h : rk' ≠ rk) :
    (t.updateRound rk r).rounds rk' = t.rounds rk' := by
  simp [Tournament.updateRound, h]

/-- Two distinct numbered rounds are distinct keys. -/
theorem round_ne_round (a b : Nat) (h : a ≠ b) :
    RoundKind.Round a ≠ RoundKind.Round b := by
  intro hc
  exact absurd (RoundKind.Round.inj hc) h

/-- Case analysis of a successful `advance_team` on `Round k`: the round
is present, the team is found and its first matchup's winner set, and —
when a next round exists (`k < 6`) — the team is added to that round's
matchup at position `index / 2`. -/
theorem advance_team_destruct (t t' : Tournament) (tm : String) (k : Nat)
    (h : t.advance_team tm (RoundKind.Round k) = some t') :
    ∃ r ms1 m, t.rounds (RoundKind.Round k) = some r ∧
      setWinningFirst r.matchups tm = some ms1 ∧
      Round.get_matchup_with_team { r with matchups := ms1 } tm = some m ∧
      ((6 ≤ k ∧ t' = t.updateRound (RoundKind.Round k) { r with matchups := ms1 }) ∨
       (k < 6 ∧ ∃ rN target target2,
         t.rounds (RoundKind.Round (k + 1)) = some rN ∧
         rN.matchups.get? (m.index / 2) = some target ∧
         target.add_team tm = some target2 ∧
         t' = (t.updateRound (RoundKind.Round k)
             { r with matchups := ms1 }).updateRound (RoundKind.Round (k + 1))
           { rN with matchups := rN.matchups.set (m.index / 2) target2 })) := by
  unfold Tournament.advance_team at h
  rcases h1 : t.rounds (RoundKind.Round k) with _ | r
  · simp only [h1] at h
    exact Option.noConfusion h
  · simp only [h1] at h
    rcases h2 : setWinningFirst r.matchups tm with _ | ms1
    · simp only [h2] at h
      exact Option.noConfusion h
    · simp only [h2] at h
      rcases h3 : Round.get_matchup_with_team { r with matchups := ms1 } tm with _ | m
      · simp only [h3] at h
        exact Option.noConfusion h
      · by_cases hk : k < 6
        · simp only [h3, RoundKind.next_round, hk, if_true] at h
          have hupd : (t.updateRound (RoundKind.Round k)
              { r with matchups := ms1 }).rounds (RoundKind.Round (k + 1)) =
              t.rounds (RoundKind.Round (k + 1)) :=
            updateRound_rounds_ne _ _ _ _ (round_ne_round _ _ (by omega))
          rw [hupd] at h
          rcases h4 : t.rounds (RoundKind.Round (k + 1)) with _ | rN
          · simp only [h4] at h
            exact Option.noConfusion h
          · simp only [h4] at h
            rcases h5 : rN.matchups.get? (m.index / 2) with _ | target
            · simp only [h5] at h
              exact Option.noConfusion h
            · simp only [h5] at h
              rcases h6 : target.add_team tm with _ | target2
              · simp only [h6] at h
                exact Option.noConfusion h
              · simp only [h6] at h
                cases h
                exact ⟨r, ms1, m, rfl, h2, h3,
                  Or.inr ⟨hk, rN, target, target2, rfl, h5, h6, rfl⟩⟩
        · simp only [h3, RoundKind.next_round, hk, if_false] at h
          cases h
          exact ⟨r, ms1, m, rfl, h2, h3, Or.inl ⟨by omega, rfl⟩⟩

/-- `add_team` preserves the winner and the index field. -/
theorem add_team_preserves (m m2 : Matchup) (nm : String)
    (h : m.add_team nm = some m2) : m2.winner = m.winner ∧ m2.index = m.index := by
  unfold Matchup.add_team at h
  rcases h1 : m.teams.1 with _ | a <;> rw [h1] at h
  · cases h
    exact ⟨rfl, rfl⟩
  · rcases h2 : m.teams.2 with _ | b <;> rw [h2] at h
    · cases h
      exact ⟨rfl, rfl⟩
    · cases h

/-- `setWinningFirst` preserves the team pairs of every position. -/
theorem setWinningFirst_teams_map (ms : List Matchup) (tm : String) (ms1 : List Matchup)
    (h : setWinningFirst ms tm = some ms1) :
    ms1.map Matchup.teams = ms.map Matchup.teams := by
  obtain ⟨i, m, hget, hinc, hfirst, hset⟩ := setWinningFirst_eq_some ms tm ms1 h
  rw [hset, List.map_set, set_winning_team_teams]
  exact list_set_same _ _ _ (by rw [List.get?_map, hget]; rfl)

/-- Frame conditions of one `advance_team` on `Round k`: every round
other than `k` and `k+1` is untouched, the team pairs of round `k` are
untouched, and the winners of round `k+1` are untouched. -/
theorem advance_team_frame (t t' : Tournament) (tm : String) (k : Nat)
    (h : t.advance_team tm (RoundKind.Round k) = some t') :
    (∀ rk, rk ≠ RoundKind.Round k → rk ≠ RoundKind.Round (k + 1) →
      t'.rounds rk = t.rounds rk) ∧
    teamsView t' (RoundKind.Round k) = teamsView t (RoundKind.Round k) ∧
    (∀ j, winnerAt t' (RoundKind.Round (k + 1)) j =
      winnerAt t (RoundKind.Round (k + 1)) j) := by
  obtain ⟨r, ms1, m, h1, h2, h3, hcase⟩ := advance_team_destruct t t' tm k h
  have hteams := setWinningFirst_teams_map r.matchups tm ms1 h2
  rcases hcase with ⟨hk6, rfl⟩ | ⟨hk6, rN, target, target2, h4, h5, h6, rfl⟩
  · refine ⟨?_, ?_, ?_⟩
    · intro rk hne1 hne2
      exact updateRound_rounds_ne _ _ _ _ hne1
    · unfold teamsView
      rw [updateRound_rounds_self, h1]
      exact congrArg some hteams
    · intro j
      unfold winnerAt
      rw [updateRound_rounds_ne _ _ _ _ (round_ne_round _ _ (by omega))]
  · refine ⟨?_, ?_, ?_⟩
    · intro rk hne1 hne2
      rw [updateRound_rounds_ne _ _ _ _ hne2, updateRound_rounds_ne _ _ _ _ hne1]
    · unfold teamsView
      rw [updateRound_rounds_ne _ _ _ _ (round_ne_round _ _ (by omega)),
        updateRound_rounds_self, h1]
      exact congrArg some hteams
    · intro j
      unfold winnerAt
      rw [updateRound_rounds_self, h4]
      simp only [Option.some_bind]
      obtain ⟨hw, -⟩ := add_team_preserves target target2 tm h6
      have hlt : m.index / 2 < rN.matchups.length := by
        rcases List.get?_eq_some.mp h5 with ⟨hlt, -⟩
        exact hlt
      by_cases hj : j = m.index / 2
      · subst hj
        rw [List.get?_set_eq_of_lt _ hlt, h5]
        simp only [Option.map_some']
        rw [hw]
      · rw [List.get?_set_ne _ _ (by omega)]

/-- Frame conditions of the advancing loop. -/
theorem advanceAll_frame (k : Nat) (L : List String) :
    ∀ t t', advanceAll t L (RoundKind.Round k) = some t' →
      (∀ rk, rk ≠ RoundKind.Round k → rk ≠ RoundKind.Round (k + 1) →
        t'.rounds rk = t.rounds rk) ∧
      teamsView t' (RoundKind.Round k) = teamsView t (RoundKind.Round k) ∧
      (∀ j, winnerAt t' (RoundKind.Round (k + 1)) j =
        winnerAt t (RoundKind.Round (k + 1)) j) := by
  induction L with
  | nil =>
    intro t t' h
    cases h
    exact ⟨fun rk h1 h2 => rfl, rfl, fun j => rfl⟩
  | cons x L ih =>
    intro t t' h
    unfold advanceAll at h
    rw [List.foldlM_cons] at h
    rcases hstep : t.advance_team x (RoundKind.Round k) with _ | t2
    · rw [hstep] at h
      exact Option.noConfusion h
    · rw [hstep] at h
      obtain ⟨hf1, ht1, hw1⟩ := advance_team_frame t t2 x k hstep
      obtain ⟨hf2, ht2, hw2⟩ := ih t2 t' (by simpa using h)
      exact ⟨fun rk h1 h2 => (hf2 rk h1 h2).trans (hf1 rk h1 h2),
        ht2.trans ht1, fun j => (hw2 j).trans (hw1 j)⟩

/-- Case analysis of one successful reconciliation iteration. -/
theorem reconcileRound_destruct (obs : RoundKind → Option (List String))
    (hn : String → String) (t t' : Tournament) (n : Nat)
    (h : reconcileRound obs hn t n = some t') :
    ∃ rcur, t.rounds (RoundKind.Round n) = some rcur ∧
      advanceAll t (collectAdvancers (obs (RoundKind.Round (n + 1))) hn rcur.matchups)
        (RoundKind.Round n) = some t' := by
  unfold reconcileRound at h
  rcases h1 : t.rounds (RoundKind.Round n) with _ | rcur
  · rw [h1] at h
    exact Option.noConfusion h
  · rw [h1] at h
    exact ⟨rcur, rfl, h⟩

/-- Frame conditions of one reconciliation iteration. -/
theorem reconcileRound_frame (obs : RoundKind → Option (List String))
    (hn : String → String) (t t' : Tournament) (n : Nat)
    (h : reconcileRound obs hn t n = some t') :
    (∀ rk, rk ≠ RoundKind.Round n → rk ≠ RoundKind.Round (n + 1) →
      t'.rounds rk = t.rounds rk) ∧
    teamsView t' (RoundKind.Round n) = teamsView t (RoundKind.Round n) ∧
    (∀ j, winnerAt t' (RoundKind.Round (n + 1)) j =
      winnerAt t (RoundKind.Round (n + 1)) j) := by
  obtain ⟨rcur, h1, h2⟩ := reconcileRound_destruct obs hn t t' n h
  exact advanceAll_frame n _ t t' h2

/-- When the team occupies exactly the slot `s` of a matchup,
`set_winning_team` designates exactly `s`. -/
theorem set_winning_team_winner_of_slot (m : Matchup) (tm : String) (s : MatchupInd)
    (hs : m.teamAt s = some tm)
    (huniq : ∀ s', m.teamAt s' = some tm → s' = s) :
    (m.set_winning_team tm).winner = some s := by
  cases s with
  | Team1 =>
    have h1 : m.is_team_ind tm MatchupInd.Team1 = true := by
      unfold Matchup.is_team_ind
      rw [hs]
      simp
    unfold Matchup.set_winning_team
    rw [if_pos h1]
    rfl
  | Team2 =>
    have h1 : m.is_team_ind tm MatchupInd.Team1 = false := by
      unfold Matchup.is_team_ind
      rcases ht : m.teamAt MatchupInd.Team1 with _ | a
      · rfl
      · have hne : a ≠ tm := by
          intro heq
          subst heq
          cases huniq MatchupInd.Team1 ht
        simp [hne]
    unfold Matchup.set_winning_team
    rw [if_neg (by simp [h1])]
    rfl

/-- Effect of one `advance_team` on the winners of the round it
processes: a position whose matchup does not contain the team keeps its
winner; when the team occupies exactly one slot of exactly one matchup,
that matchup's winner becomes that slot. -/
theorem advance_team_winner_effect (t t' : Tournament) (tm : String) (n : Nat)
    (TV : List (Option String × Option String))
    (hadv : t.advance_team tm (RoundKind.Round n) = some t')
    (hTV : teamsView t (RoundKind.Round n) = some TV) :
    ∀ j p, TV.get? j = some p →
      ((tm ∉ pairNames p → winnerAt t' (RoundKind.Round n) j =
          winnerAt t (RoundKind.Round n) j) ∧
       (∀ s, pairAt p s = some tm →
        (∀ j' p', TV.get? j' = some p' → tm ∈ pairNames p' → j' = j) →
        (∀ s', pairAt p s' = some tm → s' = s) →
        winnerAt t' (RoundKind.Round n) j = some (some s))) := by
  obtain ⟨r, ms1, m, h1, h2, h3, hcase⟩ := advance_team_destruct t t' tm n hadv
  have hTVr : TV = r.matchups.map Matchup.teams := by
    unfold teamsView at hTV
    rw [h1] at hTV
    simp only [Option.map_some'] at hTV
    exact (Option.some.inj hTV).symm
  obtain ⟨i, mi, hget, hinc, hfirst, hset⟩ := setWinningFirst_eq_some r.matchups tm ms1 h2
  have hmem_i : tm ∈ pairNames mi.teams := by
    rw [← slotNames_eq_pairNames]
    rcases (includes_team_iff _ tm).mp hinc with hx | hx
    · exact (mem_slotNames _ tm).mpr (Or.inl hx)
    · exact (mem_slotNames _ tm).mpr (Or.inr hx)
  have hroundn : t'.rounds (RoundKind.Round n) = some { r with matchups := ms1 } := by
    rcases hcase with ⟨hk6, rfl⟩ | ⟨hk6, rN, target, target2, h4, h5, h6, rfl⟩
    · exact updateRound_rounds_self _ _ _
    · rw [updateRound_rounds_ne _ _ _ _ (round_ne_round _ _ (by omega))]
      exact updateRound_rounds_self _ _ _
  intro j p hj
  have hpj : (r.matchups.get? j).map Matchup.teams = some p := by
    rw [← List.get?_map, ← hTVr, hj]
  rcases hmj : r.matchups.get? j with _ | mj
  · rw [hmj] at hpj
    cases hpj
  · rw [hmj] at hpj
    simp only [Option.map_some'] at hpj
    have hpj' : mj.teams = p := Option.some.inj hpj
    constructor
    · intro hnot
      have hij : i ≠ j := by
        intro hc
        subst hc
        rw [hget] at hmj
        cases hmj
        rw [hpj'] at hmem_i
        exact hnot hmem_i
      unfold winnerAt
      rw [hroundn, h1]
      simp only [Option.some_bind]
      show (ms1.get? j).map _ = _
      rw [hset, List.get?_set_ne _ _ hij]
    · intro s hs huniq hsuniq
      have hij : i = j := by
        apply huniq i mi.teams
        · rw [hTVr, List.get?_map, hget]
          rfl
        · exact hmem_i
      subst hij
      rw [hget] at hmj
      cases hmj
      have hlt : i < r.matchups.length := by
        rcases List.get?_eq_some.mp hget with ⟨hlt, -⟩
        exact hlt
      unfold winnerAt
      rw [hroundn]
      simp only [Option.some_bind]
      show (ms1.get? i).map _ = _
      rw [hset, List.get?_set_eq_of_lt _ hlt]
      simp only [Option.map_some']
      rw [set_winning_team_winner_of_slot mi tm s ?_ ?_]
      · rw [teamAt_eq_pairAt, hpj']
        exact hs
      · intro s' hs'
        apply hsuniq
        rw [← hpj', ← teamAt_eq_pairAt]
        exact hs'

/-- Effect of the advancing loop on the winners of the processed round,
for a duplicate-free list of advancing teams: positions containing none
of them keep their winner; a position containing exactly one of them (in
exactly one slot, and in no other position) ends decided for that
slot. -/
theorem advanceAll_winner_effect (n : Nat) (L : List String) :
    ∀ (t t' : Tournament) (TV : List (Option String × Option String)),
      advanceAll t L (RoundKind.Round n) = some t' →
      teamsView t (RoundKind.Round n) = some TV →
      L.Nodup →
      ∀ j p, TV.get? j = some p →
        (((∀ x ∈ L, x ∉ pairNames p) → winnerAt t' (RoundKind.Round n) j =
            winnerAt t (RoundKind.Round n) j) ∧
         (∀ s tm, pairAt p s = some tm → tm ∈ L →
          (∀ y ∈ L, y ∈ pairNames p → y = tm) →
          (∀ j' p', TV.get? j' = some p' → tm ∈ pairNames p' → j' = j) →
          (∀ s', pairAt p s' = some tm → s' = s) →
          winnerAt t' (RoundKind.Round n) j = some (some s))) := by
  induction L with
  | nil =>
    intro t t' TV h hTV hnd j p hj
    cases h
    exact ⟨fun _ => rfl, fun s tm _ htm => absurd htm (List.not_mem_nil tm)⟩
  | cons x L ih =>
    intro t t' TV h hTV hnd j p hj
    unfold advanceAll at h
    rw [List.foldlM_cons] at h
    rcases hstep : t.advance_team x (RoundKind.Round n) with _ | t2
    · rw [hstep] at h
      exact Option.noConfusion h
    · rw [hstep] at h
      have hrest : advanceAll t2 L (RoundKind.Round n) = some t' := by simpa using h
      have hTV2 : teamsView t2 (RoundKind.Round n) = some TV := by
        obtain ⟨-, ht2, -⟩ := advance_team_frame t t2 x n hstep
        rw [ht2, hTV]
      obtain ⟨hxL, hndL⟩ := List.nodup_cons.mp hnd
      have hstepW := advance_team_winner_effect t t2 x n TV hstep hTV j p hj
      have ihW := ih t2 t' TV hrest hTV2 hndL j p hj
      constructor
      · intro hnone
        rw [ihW.1 (fun y hy => hnone y (by simp [hy]))]
        exact hstepW.1 (hnone x (by simp))
      · intro s tm hs htm hyuniq hjuniq hsuniq
        rcases List.mem_cons.mp htm with heq | htm'
        · subst heq
          rw [ihW.1 ?_]
          · exact hstepW.2 s hs hjuniq hsuniq
          · intro y hy hyp
            have hyx : y = tm := hyuniq y (by simp [hy]) hyp
            subst hyx
            exact absurd hy hxL
        · exact ihW.2 s tm hs htm'
            (fun y hy hyp => hyuniq y (by simp [hy]) hyp) hjuniq hsuniq

/-- The teams pushed for one matchup are its slot names filtered by
observed membership. -/
theorem matchupObserved_eq_filter (cur : List String) (hn : String → String) (m : Matchup) :
    matchupObserved cur hn m =
      (slotNames m).filter (fun tm => cur.contains (hn tm)) := by
  unfold matchupObserved slotNames
  rcases h1 : m.teams.1 with _ | a <;> rcases h2 : m.teams.2 with _ | b <;>
    simp only [List.nil_append, List.filter_nil, List.filter_append, List.filter_cons,
      List.filter_nil, List.append_nil] <;> split <;> simp_all

/-- `teams_to_advance` is the round's slot-name sequence filtered by
observed membership. -/
theorem collectAdvancers_eq_filter (cur : List String) (hn : String → String)
    (ms : List Matchup) :
    collectAdvancers (some cur) hn ms =
      (roundNames ms).filter (fun tm => cur.contains (hn tm)) := by
  unfold collectAdvancers roundNames
  induction ms with
  | nil => rfl
  | cons m ms ih =>
    simp only [List.map_cons, List.flatten_cons, List.filter_append]
    rw [matchupObserved_eq_filter]
    exact congrArg _ ih

/-- In a duplicate-free slot pair, a name determines its slot. -/
theorem pairAt_unique_of_nodup (p : Option String × Option String)
    (hnd : (pairNames p).Nodup) (s s' : MatchupInd) (tm : String)
    (hs : pairAt p s = some tm) (hs' : pairAt p s' = some tm) : s' = s := by
  cases s <;> cases s' <;> try rfl
  · exfalso
    have h1 : p.1 = some tm := hs
    have h2 : p.2 = some tm := hs'
    unfold pairNames at hnd
    rw [h1, h2] at hnd
    simp at hnd
  · exfalso
    have h1 : p.1 = some tm := hs'
    have h2 : p.2 = some tm := hs
    unfold pairNames at hnd
    rw [h1, h2] at hnd
    simp at hnd

/-- A name reachable through `pairAt` is among the pair's names. -/
theorem mem_pairNames_of_pairAt (p : Option String × Option String) (s : MatchupInd)
    (tm : String) (h : pairAt p s = some tm) : tm ∈ pairNames p := by
  cases s with
  | Team1 =>
    have h1 : p.1 = some tm := h
    unfold pairNames
    rw [h1]
    simp
  | Team2 =>
    have h2 : p.2 = some tm := h
    unfold pairNames
    rw [h2]
    rcases p.1 with _ | a <;> simp

/-- Effect of one reconciliation iteration on the winners of the round
it processes, for a round with pairwise-distinct slot names: a matchup
with no observed team keeps its winner, and a matchup whose observed
team occupies slot `s` (its other occupant unobserved) ends decided for
`s`. -/
theorem reconcileRound_winner_effect (obs : RoundKind → Option (List String))
    (hn : String → String) (t t' : Tournament) (n : Nat)
    (TV : List (Option String × Option String))
    (h : reconcileRound obs hn t n = some t')
    (hTV : teamsView t (RoundKind.Round n) = some TV)
    (hnd : ((TV.map pairNames).flatten).Nodup) :
    ∀ j p, TV.get? j = some p →
      ((∀ x ∈ pairNames p, obsContains obs (RoundKind.Round (n + 1)) (hn x) = false) →
        winnerAt t' (RoundKind.Round n) j = winnerAt t (RoundKind.Round n) j) ∧
      (∀ s tm, pairAt p s = some tm →
        obsContains obs (RoundKind.Round (n + 1)) (hn tm) = true →
        (∀ y ∈ pairNames p, y ≠ tm →
          obsContains obs (RoundKind.Round (n + 1)) (hn y) = false) →
        winnerAt t' (RoundKind.Round n) j = some (some s)) := by
  obtain ⟨rcur, h1, h2⟩ := reconcileRound_destruct obs hn t t' n h
  have hTVr : TV = rcur.matchups.map Matchup.teams := by
    unfold teamsView at hTV
    rw [h1] at hTV
    simp only [Option.map_some'] at hTV
    exact (Option.some.inj hTV).symm
  have hrn : roundNames rcur.matchups = (TV.map pairNames).flatten := by
    unfold roundNames
    rw [hTVr, List.map_map]
    rfl
  rcases hobs : obs (RoundKind.Round (n + 1)) with _ | cur
  · rw [hobs] at h2
    have hL : collectAdvancers none hn rcur.matchups = [] := rfl
    rw [hL] at h2
    cases h2
    intro j p hj
    constructor
    · intro _
      rfl
    · intro s tm hs hobs2 huniq
      simp only [obsContains, hobs] at hobs2
      exact Bool.noConfusion hobs2
  · rw [hobs] at h2
    rw [collectAdvancers_eq_filter] at h2
    have hLnd : ((roundNames rcur.matchups).filter
        (fun tm => cur.contains (hn tm))).Nodup := by
      rw [hrn]
      exact hnd.filter _
    have hW := advanceAll_winner_effect n _ t t' TV h2 hTV hLnd
    intro j p hj
    have hpmem : pairNames p ∈ TV.map pairNames :=
      List.mem_map_of_mem _ (List.get?_mem hj)
    constructor
    · intro hnone
      refine (hW j p hj).1 ?_
      intro x hx hxp
      have hpred := (List.mem_filter.mp hx).2
      have hfalse := hnone x hxp
      simp only [obsContains, hobs] at hfalse
      rw [hfalse] at hpred
      cases hpred
    · intro s tm hs hobst huniq
      have htmp : tm ∈ pairNames p := mem_pairNames_of_pairAt p s tm hs
      refine (hW j p hj).2 s tm hs ?_ ?_ ?_ ?_
      · apply List.mem_filter.mpr
        constructor
        · rw [hrn]
          exact List.mem_flatten.mpr ⟨pairNames p, hpmem, htmp⟩
        · simp only [obsContains, hobs] at hobst
          exact hobst
      · intro y hy hyp
        by_contra hne
        have hyfalse := huniq y hyp hne
        simp only [obsContains, hobs] at hyfalse
        have hpred := (List.mem_filter.mp hy).2
        rw [hyfalse] at hpred
        cases hpred
      · intro j' p' hj' htmp'
        exact nodup_flatten_unique_component (TV.map pairNames) hnd j' j
          (pairNames p') (pairNames p) tm
          (by rw [List.get?_map, hj']; rfl)
          (by rw [List.get?_map, hj]; rfl)
          htmp' htmp
      · intro s' hs'
        exact pairAt_unique_of_nodup p
          (nodup_flatten_component _ hnd _ hpmem) s s' tm hs hs'

/-- Case analysis of a successful `Tournament::new`: the fresh
tournament is built and the five reconciliation iterations run in
increasing round order. -/
theorem tournament_new_destruct (teams : List Team)
    (obs : RoundKind → Option (List String)) (hn : String → String) (T : Tournament)
    (h : Tournament.new teams obs hn = some T) :
    ∃ T0 T1 T2 T3 T4, initTournament teams = some T0 ∧
      reconcileRound obs hn T0 1 = some T1 ∧
      reconcileRound obs hn T1 2 = some T2 ∧
      reconcileRound obs hn T2 3 = some T3 ∧
      reconcileRound obs hn T3 4 = some T4 ∧
      reconcileRound obs hn T4 5 = some T := by
  unfold Tournament.new at h
  rcases hI : initTournament teams with _ | T0
  · rw [hI] at h
    exact Option.noConfusion h
  · rw [hI] at h
    simp only [Option.some_bind] at h
    unfold reconcilePass at h
    simp only [List.foldlM_cons, List.foldlM_nil, Option.bind_eq_bind] at h
    rcases hs1 : reconcileRound obs hn T0 1 with _ | T1
    · rw [hs1] at h
      simp at h
    · rw [hs1] at h
      simp only [Option.some_bind] at h
      rcases hs2 : reconcileRound obs hn T1 2 with _ | T2
      · rw [hs2] at h
        simp at h
      · rw [hs2] at h
        simp only [Option.some_bind] at h
        rcases hs3 : reconcileRound obs hn T2 3 with _ | T3
        · rw [hs3] at h
          simp at h
        · rw [hs3] at h
          simp only [Option.some_bind] at h
          rcases hs4 : reconcileRound obs hn T3 4 with _ | T4
          · rw [hs4] at h
            simp at h
          · rw [hs4] at h
            simp only [Option.some_bind] at h
            rcases hs5 : reconcileRound obs hn T4 5 with _ | T5
            · rw [hs5] at h
              simp at h
            · rw [hs5] at h
              simp only [Option.some_bind] at h
              cases h
              exact ⟨T0, T1, T2, T3, T4, rfl, hs1, hs2, hs3, hs4, hs5⟩

/-- Equal rounds give equal team views. -/
theorem teamsView_congr (t t' : Tournament) (rk : RoundKind)
    (h : t'.rounds rk = t.rounds rk) : teamsView t' rk = teamsView t rk := by
  unfold teamsView
  rw [h]

/-- Equal rounds give equal winners. -/
theorem winnerAt_congr (t t' : Tournament) (rk : RoundKind) (j : Nat)
    (h : t'.rounds rk = t.rounds rk) : winnerAt t' rk j = winnerAt t rk j := by
  unfold winnerAt
  rw [h]

/-- The insertion fold of round 1 never sets a winner. -/
theorem insert_fold_no_winner (l : List Team) :
    ∀ (r r' : Round), List.foldlM insert_step r l = some r' →
      (∀ m ∈ r.matchups, m.winner = none) → ∀ m ∈ r'.matchups, m.winner = none := by
  induction l with
  | nil =>
    intro r r' h hall
    cases h
    exact hall
  | cons t l ih =>
    intro r r' h hall
    rw [List.foldlM_cons] at h
    rcases hstep : insert_step r t with _ | r1
    · rw [hstep] at h
      simp at h
    · rw [hstep] at h
      refine ih r1 r' (by simpa using h) ?_
      rcases hts : team_slot t with _ | slot
      · simp only [insert_step, hts] at hstep
        exact Option.noConfusion hstep
      · simp only [insert_step, hts, Round.add_team_to_matchup] at hstep
        rcases hg : r.matchups.get? slot with _ | m0
        · simp only [hg] at hstep
          exact Option.noConfusion hstep
        · simp only [hg] at hstep
          rcases ha : m0.add_team t.name with _ | m1
          · simp only [ha] at hstep
            simp at hstep
          · simp only [ha, Option.map_some'] at hstep
            have hstep2 := Option.some.inj hstep
            subst hstep2
            intro m hm
            rcases List.mem_or_eq_of_mem_set (by simpa using hm) with hmem | heq
            · exact hall m hmem
            · subst heq
              rw [(add_team_preserves m0 m t.name ha).1]
              exact hall m0 (List.get?_mem hg)

/-- Matchups of a fresh empty round have no winner. -/
theorem round_empty_no_winner (n : Nat) :
    ∀ m ∈ (Round.empty n).matchups, m.winner = none := by
  intro m hm
  simp only [Round.empty] at hm
  obtain ⟨i, -, rfl⟩ := List.mem_map.mp hm
  rfl

/-- Round 1 as built from the roster has no winner set. -/
theorem new_round1_no_winner (teams : List Team) (r1 : Round)
    (h : new_round1 teams = some r1) : ∀ m ∈ r1.matchups, m.winner = none := by
  simp only [new_round1] at h
  split at h
  · exact insert_fold_no_winner _ (Round.empty 1) r1 h (round_empty_no_winner 1)
  · exact Option.noConfusion h

/-- The freshly built tournament has no winner anywhere. -/
theorem initTournament_no_winner (teams : List Team) (T0 : Tournament)
    (h : initTournament teams = some T0) :
    ∀ k j w, winnerAt T0 (RoundKind.Round k) j = some w → w = none := by
  unfold initTournament at h
  rcases hr1 : new_round1 teams with _ | r1
  · rw [hr1] at h
    exact Option.noConfusion h
  · rw [hr1] at h
    simp only [Option.map_some'] at h
    cases h
    intro k j w hw
    unfold winnerAt at hw
    have hgen : ∀ (r : Round), (∀ m ∈ r.matchups, m.winner = none) →
        ((r.matchups.get? j).map Matchup.winner = some w) → w = none := by
      intro r hnone hmap
      rcases hg : r.matchups.get? j with _ | m
      · rw [hg] at hmap
        cases hmap
      · rw [hg] at hmap
        simp only [Option.map_some'] at hmap
        cases hmap
        exact hnone m (List.get?_mem hg)
    rcases k with _ | _ | _ | _ | _ | _ | _ | k
    · exact Option.noConfusion hw
    · exact hgen r1 (new_round1_no_winner teams r1 hr1) hw
    · exact hgen (Round.empty 2) (round_empty_no_winner 2) hw
    · exact hgen (Round.empty 3) (round_empty_no_winner 3) hw
    · exact hgen (Round.empty 4) (round_empty_no_winner 4) hw
    · exact hgen (Round.empty 5) (round_empty_no_winner 5) hw
    · exact hgen (Round.empty 6) (round_empty_no_winner 6) hw
    · exact Option.noConfusion hw

/-- A position of the teams view always carries a stored winner value. -/
theorem winnerAt_isSome_of_teamsView (t : Tournament) (n : Nat)
    (TV : List (Option String × Option String)) (j : Nat)
    (p : Option String × Option String)
    (hTV : teamsView t (RoundKind.Round n) = some TV)
    (hj : TV.get? j = some p) :
    ∃ w, winnerAt t (RoundKind.Round n) j = some w := by
  unfold teamsView at hTV
  rcases ht : t.rounds (RoundKind.Round n) with _ | r
  · rw [ht] at hTV
    cases hTV
  · rw [ht] at hTV
    simp only [Option.map_some'] at hTV
    have hTVr := Option.some.inj hTV
    subst hTVr
    rw [List.get?_map] at hj
    rcases Option.map_eq_some'.mp hj with ⟨m, hm, -⟩
    refine ⟨m.winner, ?_⟩
    unfold winnerAt
    rw [ht]
    simp only [Option.bind_eq_bind, Option.some_bind, hm, Option.map_some']

/-- One reconciliation step settles the winners of its round for good: in
any later state whose round-`n` teams and winners agree with the step's
output, an unobserved matchup's winner is still `none` and a uniquely
observed team's slot is the stored winner. -/
theorem pass_round_effect
    (obs : RoundKind → Option (List String)) (hn : String → String) (n : Nat)
    (Tpre Tpost Tfin : Tournament)
    (hstep : reconcileRound obs hn Tpre n = some Tpost)
    (hWpre : ∀ j w, winnerAt Tpre (RoundKind.Round n) j = some w → w = none)
    (hTVfin : teamsView Tfin (RoundKind.Round n) = teamsView Tpre (RoundKind.Round n))
    (hWfin : ∀ j, winnerAt Tfin (RoundKind.Round n) j = winnerAt Tpost (RoundKind.Round n) j)
    (TV : List (Option String × Option String))
    (hTV : teamsView Tfin (RoundKind.Round n) = some TV)
    (hnd : ((TV.map pairNames).flatten).Nodup) :
    ∀ j p, TV.get? j = some p →
      ((∀ x ∈ pairNames p, obsContains obs (RoundKind.Round (n + 1)) (hn x) = false) →
        winnerAt Tfin (RoundKind.Round n) j = some none) ∧
      (∀ s tm, pairAt p s = some tm →
        obsContains obs (RoundKind.Round (n + 1)) (hn tm) = true →
        (∀ y ∈ pairNames p, y ≠ tm →
          obsContains obs (RoundKind.Round (n + 1)) (hn y) = false) →
        winnerAt Tfin (RoundKind.Round n) j = some (some s)) := by
  have hTVpre : teamsView Tpre (RoundKind.Round n) = some TV := by
    rw [← hTVfin]
    exact hTV
  have hre := reconcileRound_winner_effect obs hn Tpre Tpost n TV hstep hTVpre hnd
  intro j p hj
  refine ⟨?_, ?_⟩
  · intro hnone
    have h1 := (hre j p hj).1 hnone
    obtain ⟨w, hw⟩ := winnerAt_isSome_of_teamsView Tpre n TV j p hTVpre hj
    have hw0 := hWpre j w hw
    subst hw0
    rw [hWfin j, h1, hw]
  · intro s tm hs ht hothers
    rw [hWfin j]
    exact (hre j p hj).2 s tm hs ht hothers

/-- Matchup-level form of `pass_round_effect`: in any final state agreeing
with the round-`n` reconciliation step's output, a matchup's uniquely
observed team is stored as its winner and a fully unobserved matchup stays
undecided, provided round names are distinct and no matchup has both
participants observed. -/
theorem pass_round_matchup_effect
    (obs : RoundKind → Option (List String)) (hn : String → String) (n : Nat)
    (Tpre Tpost Tfin : Tournament)
    (hstep : reconcileRound obs hn Tpre n = some Tpost)
    (hWpre : ∀ j w, winnerAt Tpre (RoundKind.Round n) j = some w → w = none)
    (hTVfin : teamsView Tfin (RoundKind.Round n) = teamsView Tpre (RoundKind.Round n))
    (hWfin : ∀ j, winnerAt Tfin (RoundKind.Round n) j = winnerAt Tpost (RoundKind.Round n) j)
    (r : Round) (hr : Tfin.rounds (RoundKind.Round n) = some r)
    (hnd : (roundNames r.matchups).Nodup)
    (hcons : ∀ m ∈ r.matchups, ∀ a b, m.teams.1 = some a → m.teams.2 = some b →
      obsContains obs (RoundKind.Round (n + 1)) (hn a) = true →
      obsContains obs (RoundKind.Round (n + 1)) (hn b) = true → False) :
    (∀ m ∈ r.matchups, ∀ s tm, m.teamAt s = some tm →
      obsContains obs (RoundKind.Round (n + 1)) (hn tm) = true → m.winner = some s) ∧
    (∀ m ∈ r.matchups,
      (∀ tm ∈ slotNames m, obsContains obs (RoundKind.Round (n + 1)) (hn tm) = false) →
      m.winner = none) := by
  have hTV : teamsView Tfin (RoundKind.Round n) =
      some (r.matchups.map fun m => m.teams) := by
    unfold teamsView
    rw [hr]
    rfl
  have hbridge : (((r.matchups.map fun m => m.teams).map pairNames).flatten) =
      roundNames r.matchups := by
    unfold roundNames
    rw [List.map_map]
    rfl
  have hmain := pass_round_effect obs hn n Tpre Tpost Tfin hstep hWpre hTVfin hWfin
    (r.matchups.map fun m => m.teams) hTV (by rw [hbridge]; exact hnd)
  have hgetTV : ∀ j (m : Matchup), r.matchups.get? j = some m →
      (r.matchups.map fun m => m.teams).get? j = some m.teams := by
    intro j m hm
    rw [List.get?_map, hm]
    rfl
  have hwAt : ∀ j (m : Matchup), r.matchups.get? j = some m →
      winnerAt Tfin (RoundKind.Round n) j = some m.winner := by
    intro j m hm
    unfold winnerAt
    rw [hr]
    simp only [Option.bind_eq_bind, Option.some_bind, hm, Option.map_some']
  constructor
  · intro m hmem s tm hs hob
    obtain ⟨j, hm⟩ := List.mem_iff_get?.mp hmem
    have hcm := hcons m hmem
    have hothers : ∀ y ∈ pairNames m.teams, y ≠ tm →
        obsContains obs (RoundKind.Round (n + 1)) (hn y) = false := by
      intro y hy hyne
      rcases hob2 : obsContains obs (RoundKind.Round (n + 1)) (hn y) with _ | _
      · rfl
      · exfalso
        rw [teamAt_eq_pairAt] at hs
        have hy2 := (mem_slotNames m y).mp (by rw [slotNames_eq_pairNames]; exact hy)
        cases s with
        | Team1 =>
          have hs1 : m.teams.1 = some tm := hs
          rcases hy2 with hy1 | hy1
          · exact hyne (Option.some.inj (hy1.symm.trans hs1))
          · exact hcm tm y hs1 hy1 hob hob2
        | Team2 =>
          have hs1 : m.teams.2 = some tm := hs
          rcases hy2 with hy1 | hy1
          · exact hcm y tm hy1 hs1 hob2 hob
          · exact hyne (Option.some.inj (hy1.symm.trans hs1))
    have hres := (hmain j m.teams (hgetTV j m hm)).2 s tm
      (by rw [← teamAt_eq_pairAt]; exact hs) hob hothers
    rw [hwAt j m hm] at hres
    exact Option.some.inj hres
  · intro m hmem hnoobs
    obtain ⟨j, hm⟩ := List.mem_iff_get?.mp hmem
    have hres := (hmain j m.teams (hgetTV j m hm)).1 (by
      intro x hx
      exact hnoobs x (by rw [slotNames_eq_pairNames]; exact hx))
    rw [hwAt j m hm] at hres
    exact Option.some.inj hres

/-- C4: reconciliation (`Tournament::new`, which runs `reconcileRound` —
the shared `advance_team` path — over rounds 1..5 in increasing order)
records, for every round `n ∈ [1,5]` of the resulting tournament whose
matchup names are distinct and in which no matchup has both participants
observed in round `n+1`'s observed set, each observed team as the winner
of its round-`n` matchup (the winner marks that team's slot), while a
matchup none of whose teams is observed in round `n+1` remains
undecided (`winner = none`). -/
theorem claim4_reconciliation_effect
    (teams : List Team) (obs : RoundKind → Option (List String))
    (hn : String → String) (T : Tournament) (n : Nat) (r : Round)
    (hT : Tournament.new teams obs hn = some T)
    (hle1 : 1 ≤ n) (hle5 : n ≤ 5)
    (hr : T.rounds (RoundKind.Round n) = some r)
    (hnd : (roundNames r.matchups).Nodup)
    (hcons : ∀ m ∈ r.matchups, ∀ a b, m.teams.1 = some a → m.teams.2 = some b →
      obsContains obs (RoundKind.Round (n + 1)) (hn a) = true →
      obsContains obs (RoundKind.Round (n + 1)) (hn b) = true → False) :
    (∀ m ∈ r.matchups, ∀ s tm, m.teamAt s = some tm →
      obsContains obs (RoundKind.Round (n + 1)) (hn tm) = true → m.winner = some s) ∧
    (∀ m ∈ r.matchups,
      (∀ tm ∈ slotNames m, obsContains obs (RoundKind.Round (n + 1)) (hn tm) = false) →
      m.winner = none) := by
  obtain ⟨T0, T1, T2, T3, T4, hI, hp1, hp2, hp3, hp4, hp5⟩ :=
    tournament_new_destruct teams obs hn T hT
  have F1 := reconcileRound_frame obs hn T0 T1 1 hp1
  have F2 := reconcileRound_frame obs hn T1 T2 2 hp2
  have F3 := reconcileRound_frame obs hn T2 T3 3 hp3
  have F4 := reconcileRound_frame obs hn T3 T4 4 hp4
  have F5 := reconcileRound_frame obs hn T4 T 5 hp5
  have hW0 := initTournament_no_winner teams T0 hI
  interval_cases n
  · have hTVfin : teamsView T (RoundKind.Round 1) = teamsView T0 (RoundKind.Round 1) := by
      have v1 : teamsView T (RoundKind.Round 1) = teamsView T4 (RoundKind.Round 1) :=
        teamsView_congr T4 T _ (F5.1 _ (by decide) (by decide))
      have v2 : teamsView T4 (RoundKind.Round 1) = teamsView T3 (RoundKind.Round 1) :=
        teamsView_congr T3 T4 _ (F4.1 _ (by decide) (by decide))
      have v3 : teamsView T3 (RoundKind.Round 1) = teamsView T2 (RoundKind.Round 1) :=
        teamsView_congr T2 T3 _ (F3.1 _ (by decide) (by decide))
      have v4 : teamsView T2 (RoundKind.Round 1) = teamsView T1 (RoundKind.Round 1) :=
        teamsView_congr T1 T2 _ (F2.1 _ (by decide) (by decide))
      have v5 : teamsView T1 (RoundKind.Round 1) = teamsView T0 (RoundKind.Round 1) :=
        F1.2.1
      exact (((v1.trans v2).trans v3).trans v4).trans v5
    have hWfin : ∀ j, winnerAt T (RoundKind.Round 1) j = winnerAt T1 (RoundKind.Round 1) j := by
      intro j
      have w1 : winnerAt T (RoundKind.Round 1) j = winnerAt T4 (RoundKind.Round 1) j :=
        winnerAt_congr T4 T _ j (F5.1 _ (by decide) (by decide))
      have w2 : winnerAt T4 (RoundKind.Round 1) j = winnerAt T3 (RoundKind.Round 1) j :=
        winnerAt_congr T3 T4 _ j (F4.1 _ (by decide) (by decide))
      have w3 : winnerAt T3 (RoundKind.Round 1) j = winnerAt T2 (RoundKind.Round 1) j :=
        winnerAt_congr T2 T3 _ j (F3.1 _ (by decide) (by decide))
      have w4 : winnerAt T2 (RoundKind.Round 1) j = winnerAt T1 (RoundKind.Round 1) j :=
        winnerAt_congr T1 T2 _ j (F2.1 _ (by decide) (by decide))
      exact ((w1.trans w2).trans w3).trans w4
    exact pass_round_matchup_effect obs hn 1 T0 T1 T hp1 (hW0 1) hTVfin hWfin r hr hnd hcons
  · have hWpre : ∀ j w, winnerAt T1 (RoundKind.Round 2) j = some w → w = none := by
      intro j w hw
      have e1 : winnerAt T1 (RoundKind.Round 2) j = winnerAt T0 (RoundKind.Round 2) j :=
        F1.2.2 j
      rw [e1] at hw
      exact hW0 2 j w hw
    have hTVfin : teamsView T (RoundKind.Round 2) = teamsView T1 (RoundKind.Round 2) := by
      have v1 : teamsView T (RoundKind.Round 2) = teamsView T4 (RoundKind.Round 2) :=
        teamsView_congr T4 T _ (F5.1 _ (by decide) (by decide))
      have v2 : teamsView T4 (RoundKind.Round 2) = teamsView T3 (RoundKind.Round 2) :=
        teamsView_congr T3 T4 _ (F4.1 _ (by decide) (by decide))
      have v3 : teamsView T3 (RoundKind.Round 2) = teamsView T2 (RoundKind.Round 2) :=
        teamsView_congr T2 T3 _ (F3.1 _ (by decide) (by decide))
      have v4 : teamsView T2 (RoundKind.Round 2) = teamsView T1 (RoundKind.Round 2) :=
        F2.2.1
      exact ((v1.trans v2).trans v3).trans v4
    have hWfin : ∀ j, winnerAt T (RoundKind.Round 2) j = winnerAt T2 (RoundKind.Round 2) j := by
      intro j
      have w1 : winnerAt T (RoundKind.Round 2) j = winnerAt T4 (RoundKind.Round 2) j :=
        winnerAt_congr T4 T _ j (F5.1 _ (by decide) (by decide))
      have w2 : winnerAt T4 (RoundKind.Round 2) j = winnerAt T3 (RoundKind.Round 2) j :=
        winnerAt_congr T3 T4 _ j (F4.1 _ (by decide) (by decide))
      have w3 : winnerAt T3 (RoundKind.Round 2) j = winnerAt T2 (RoundKind.Round 2) j :=
        winnerAt_congr T2 T3 _ j (F3.1 _ (by decide) (by decide))
      exact (w1.trans w2).trans w3
    exact pass_round_matchup_effect obs hn 2 T1 T2 T hp2 hWpre hTVfin hWfin r hr hnd hcons
  · have hWpre : ∀ j w, winnerAt T2 (RoundKind.Round 3) j = some w → w = none := by
      intro j w hw
      have e1 : winnerAt T2 (RoundKind.Round 3) j = winnerAt T1 (RoundKind.Round 3) j :=
        F2.2.2 j
      have e2 : winnerAt T1 (RoundKind.Round 3) j = winnerAt T0 (RoundKind.Round 3) j :=
        winnerAt_congr T0 T1 _ j (F1.1 _ (by decide) (by decide))
      rw [e1, e2] at hw
      exact hW0 3 j w hw
    have hTVfin : teamsView T (RoundKind.Round 3) = teamsView T2 (RoundKind.Round 3) := by
      have v1 : teamsView T (RoundKind.Round 3) = teamsView T4 (RoundKind.Round 3) :=
        teamsView_congr T4 T _ (F5.1 _ (by decide) (by decide))
      have v2 : teamsView T4 (RoundKind.Round 3) = teamsView T3 (RoundKind.Round 3) :=
        teamsView_congr T3 T4 _ (F4.1 _ (by decide) (by decide))
      have v3 : teamsView T3 (RoundKind.Round 3) = teamsView T2 (RoundKind.Round 3) :=
        F3.2.1
      exact (v1.trans v2).trans v3
    have hWfin : ∀ j, winnerAt T (RoundKind.Round 3) j = winnerAt T3 (RoundKind.Round 3) j := by
      intro j
      have w1 : winnerAt T (RoundKind.Round 3) j = winnerAt T4 (RoundKind.Round 3) j :=
        winnerAt_congr T4 T _ j (F5.1 _ (by decide) (by decide))
      have w2 : winnerAt T4 (RoundKind.Round 3) j = winnerAt T3 (RoundKind.Round 3) j :=
        winnerAt_congr T3 T4 _ j (F4.1 _ (by decide) (by decide))
      exact w1.trans w2
    exact pass_round_matchup_effect obs hn 3 T2 T3 T hp3 hWpre hTVfin hWfin r hr hnd hcons
  · have hWpre : ∀ j w, winnerAt T3 (RoundKind.Round 4) j = some w → w = none := by
      intro j w hw
      have e1 : winnerAt T3 (RoundKind.Round 4) j = winnerAt T2 (RoundKind.Round 4) j :=
        F3.2.2 j
      have e2 : winnerAt T2 (RoundKind.Round 4) j = winnerAt T1 (RoundKind.Round 4) j :=
        winnerAt_congr T1 T2 _ j (F2.1 _ (by decide) (by decide))
      have e3 : winnerAt T1 (RoundKind.Round 4) j = winnerAt T0 (RoundKind.Round 4) j :=
        winnerAt_congr T0 T1 _ j (F1.1 _ (by decide) (by decide))
      rw [e1, e2, e3] at hw
      exact hW0 4 j w hw
    have hTVfin : teamsView T (RoundKind.Round 4) = teamsView T3 (RoundKind.Round 4) := by
      have v1 : teamsView T (RoundKind.Round 4) = teamsView T4 (RoundKind.Round 4) :=
        teamsView_congr T4 T _ (F5.1 _ (by decide) (by decide))
      have v2 : teamsView T4 (RoundKind.Round 4) = teamsView T3 (RoundKind.Round 4) :=
        F4.2.1
      exact v1.trans v2
    have hWfin : ∀ j, winnerAt T (RoundKind.Round 4) j = winnerAt T4 (RoundKind.Round 4) j := by
      intro j
      exact winnerAt_congr T4 T _ j (F5.1 _ (by decide) (by decide))
    exact pass_round_matchup_effect obs hn 4 T3 T4 T hp4 hWpre hTVfin hWfin r hr hnd hcons
  · have hWpre : ∀ j w, winnerAt T4 (RoundKind.Round 5) j = some w → w = none := by
      intro j w hw
      have e1 : winnerAt T4 (RoundKind.Round 5) j = winnerAt T3 (RoundKind.Round 5) j :=
        F4.2.2 j
      have e2 : winnerAt T3 (RoundKind.Round 5) j = winnerAt T2 (RoundKind.Round 5) j :=
        winnerAt_congr T2 T3 _ j (F3.1 _ (by decide) (by decide))
      have e3 : winnerAt T2 (RoundKind.Round 5) j = winnerAt T1 (RoundKind.Round 5) j :=
        winnerAt_congr T1 T2 _ j (F2.1 _ (by decide) (by decide))
      have e4 : winnerAt T1 (RoundKind.Round 5) j = winnerAt T0 (RoundKind.Round 5) j :=
        winnerAt_congr T0 T1 _ j (F1.1 _ (by decide) (by decide))
      rw [e1, e2, e3, e4] at hw
      exact hW0 5 j w hw
    exact pass_round_matchup_effect obs hn 5 T4 T T hp5 hWpre F5.2.1 (fun j => rfl)
      r hr hnd hcons

/-- Witness for C4 on the 64-team roster with snapshot `exObs`
(`"t1"` observed in round 2): in the reconciled tournament, round-1
matchup 0 is decided for `"t1"`'s slot (Team1) and matchup 1 is
undecided. -/
theorem claim4_reconciliation_witness :
    Tournament.new exTeams exObs (fun s => s) = some exT4 ∧
    exT4.rounds (RoundKind.Round 1) = some exR4 ∧
    exM4a.winner = some MatchupInd.Team1 ∧
    exM4b.winner = none := by
  have hT : Tournament.new exTeams exObs (fun s => s) = some exT4 := rfl
  have hr : exT4.rounds (RoundKind.Round 1) = some exR4 := rfl
  have hnd : (roundNames exR4.matchups).Nodup := by decide
  have hcons : ∀ m ∈ exR4.matchups, ∀ a b, m.teams.1 = some a → m.teams.2 = some b →
      obsContains exObs (RoundKind.Round (1 + 1)) ((fun s => s) a) = true →
      obsContains exObs (RoundKind.Round (1 + 1)) ((fun s => s) b) = true → False := by
    intro m hm a b h1 h2 hoa hob
    have ha : a = "t1" := by
      simp only [obsContains, exObs] at hoa
      simpa using hoa
    have hb : b = "t1" := by
      simp only [obsContains, exObs] at hob
      simpa using hob
    subst ha
    subst hb
    have hsn := nodup_flatten_component (exR4.matchups.map slotNames) hnd
      (slotNames m) (List.mem_map_of_mem slotNames hm)
    simp only [slotNames, h1, h2] at hsn
    simp at hsn
  have h := claim4_reconciliation_effect exTeams exObs (fun s => s) exT4 1 exR4
    hT (by decide) (by decide) hr hnd hcons
  have hm0 : exR4.matchups.get? 0 = some exM4a := rfl
  have hm1 : exR4.matchups.get? 1 = some exM4b := rfl
  refine ⟨hT, hr, ?_, ?_⟩
  · exact h.1 exM4a (List.get?_mem hm0) MatchupInd.Team1 "t1" (by decide) (by decide)
  · exact h.2 exM4b (List.get?_mem hm1) (by decide)
